import Mathlib

set_option linter.unusedVariables false

/-!
Verification of the YJIT backend IR of this repository: the operand model,
the Assembler (src/yjit/src/backend/ir.rs), its linear-scan register
allocator, and the x86-64 splitter (src/yjit/src/backend/x86_64/mod.rs).

Rust panics (assert!, unreachable!, index out of bounds, unwrap) are
program errors: every fallible operation is embedded as
Except String. Machine integers are embedded as Nat / Int; the only
overflow-relevant operations used by this code are bit tests on the u32
register-pool bitmap, which are exact on Nat for the pool sizes the
backend uses (the spec bounds the pool by 32 registers).
-/

/-- Rust slice indexing xs[i]: the element, or the out-of-bounds panic. -/
def getIdx {α : Type} (xs : List α) (i : Nat) : Except String α :=
  match xs.get? i with
  | some x => Except.ok x
  | none => Except.error ("index out of bounds")

/-- Rust mutable slice store xs[i] = v: in-place update, or the out-of-bounds panic. -/
def setIdx {α : Type} (xs : List α) (i : Nat) (v : α) : Except String (List α) :=
  if i < xs.length then Except.ok (xs.set i v) else Except.error ("index out of bounds")

/-- Reinterpret a u64 bit pattern as an i64 (Rust as-cast). -/
def u64_as_i64 (v : Nat) : Int :=
  if v % 2 ^ 64 < 2 ^ 63 then ((v % 2 ^ 64 : Nat) : Int)
  else ((v % 2 ^ 64 : Nat) : Int) - 2 ^ 64

/-- Modelled from the spec: crate::asm::imm_num_bits is not under src/.
It returns the smallest signed-immediate width (8, 16, 32 or 64 bits) that
represents the value; the backend only compares the result against 32. -/
def imm_num_bits (v : Int) : Nat :=
  if -128 ≤ v ∧ v ≤ 127 then 8
  else if -32768 ≤ v ∧ v ≤ 32767 then 16
  else if -2147483648 ≤ v ∧ v ≤ 2147483647 then 32
  else 64

/-- Modelled from the spec: the runtime value model (crate::cruby::VALUE) is not
under src/. Per spec section 6 it is a 64-bit encoded value that the backend
consumes only through the opaque predicates heap_object_p and special_const_p
and the reinterpretations as_i64 / as_u64, so the two predicates are carried as
fields of the model. -/
structure VALUE where
  bits : Nat
  special_const : Bool
  heap_object : Bool
deriving DecidableEq, Repr

/-- Raw u64 bit pattern of a VALUE. -/
def VALUE.as_u64 (v : VALUE) : Nat := v.bits % 2 ^ 64

/-- Bit pattern of a VALUE reinterpreted as a signed 64-bit integer. -/
def VALUE.as_i64 (v : VALUE) : Int := u64_as_i64 v.bits

/-- Opaque predicate: the value is a non-heap special constant. -/
def VALUE.special_const_p (v : VALUE) : Bool := v.special_const

/-- Opaque predicate: the value is a movable heap object. -/
def VALUE.heap_object_p (v : VALUE) : Bool := v.heap_object

/-- Modelled from the spec: the x86-64 register type crate::asm::x86_64::X86Reg
is not under src/. Per spec section 6 a register carries a width and an
ISA-specific register number; the general-purpose register-type tag is omitted
because the backend only handles general-purpose registers. -/
structure Reg where
  reg_no : Nat
  num_bits : Nat
deriving DecidableEq, Repr

/-- Modelled from the spec: X86Reg::sub_reg (crate::asm::x86_64, not under src/)
narrows a register to the sub-register of the given width (spec section 4.6
step 5); widening is a program error. -/
def Reg.sub_reg (r : Reg) (num_bits : Nat) : Except String Reg :=
  if num_bits ≤ r.num_bits then Except.ok { r with num_bits := num_bits }
  else Except.error ("sub_reg: invalid sub-register width")

/-- Modelled from the spec: physical x86-64 register constants from
crate::asm::x86_64 (not under src/), with the standard x86-64 encoding
numbers RAX=0, RCX=1, RDX=2, RBX=3, RSI=6, RDI=7, R8=8, R9=9, R11=11,
R12=12, R13=13. -/
def RAX_REG : Reg := ⟨0, 64⟩

/-- x86-64 RCX register. -/
def RCX_REG : Reg := ⟨1, 64⟩

/-- x86-64 RDX register. -/
def RDX_REG : Reg := ⟨2, 64⟩

/-- x86-64 RBX register. -/
def RBX_REG : Reg := ⟨3, 64⟩

/-- x86-64 RSI register. -/
def RSI_REG : Reg := ⟨6, 64⟩

/-- x86-64 RDI register. -/
def RDI_REG : Reg := ⟨7, 64⟩

/-- x86-64 R8 register. -/
def R8_REG : Reg := ⟨8, 64⟩

/-- x86-64 R9 register. -/
def R9_REG : Reg := ⟨9, 64⟩

/-- x86-64 R11 register. -/
def R11_REG : Reg := ⟨11, 64⟩

/-- x86-64 R12 register. -/
def R12_REG : Reg := ⟨12, 64⟩

/-- x86-64 R13 register. -/
def R13_REG : Reg := ⟨13, 64⟩

/-- Memory operand base (src/yjit/src/backend/ir.rs, enum MemBase). -/
inductive MemBase where
  | Reg (reg_no : Nat)
  | InsnOut (idx : Nat)
deriving DecidableEq, Repr

/-- Memory location (src/yjit/src/backend/ir.rs, struct Mem). -/
structure Mem where
  base : MemBase
  disp : Int
  num_bits : Nat
deriving DecidableEq, Repr

/-- Operand to an IR instruction (src/yjit/src/backend/ir.rs, enum Opnd). -/
inductive Opnd where
  | None
  | Value (v : VALUE)
  | InsnOut (idx : Nat) (num_bits : Nat)
  | Imm (val : Int)
  | UImm (val : Nat)
  | Mem (mem : Mem)
  | Reg (reg : Reg)
deriving DecidableEq, Repr

/-- Convenience constructor for memory operands (Opnd::mem in
src/yjit/src/backend/ir.rs). In the InsnOut arm the Rust pattern
binding num_bits shadows the num_bits parameter, so both the assertion and
the constructed Mem use the width of the base InsnOut, not the supplied
width; the translation reproduces that shadowing. -/
def Opnd.mem (num_bits : Nat) (base : Opnd) (disp : Int) : Except String Opnd :=
  match base with
  | Opnd.Reg base_reg =>
      if base_reg.num_bits = 64 then
        Except.ok (Opnd.Mem { base := MemBase.Reg base_reg.reg_no, disp := disp, num_bits := num_bits })
      else Except.error ("assertion failed: base_reg.num_bits == 64")
  | Opnd.InsnOut idx shadowed_num_bits =>
      if shadowed_num_bits = 64 then
        Except.ok (Opnd.Mem { base := MemBase.InsnOut idx, disp := disp, num_bits := shadowed_num_bits })
      else Except.error ("assertion failed: num_bits == 64")
  | _ => Except.error ("memory operand with non-register base")

/-- Constructor for a constant pointer operand (Opnd::const_ptr). -/
def Opnd.const_ptr (ptr : Nat) : Opnd := Opnd.UImm ptr

/-- Alias for the machine register type, usable where the name Reg would
resolve to the Opnd constructor of the same name. -/
abbrev MachineReg := Reg

/-- Unwrap a register operand (Opnd::unwrap_reg); anything else is a panic. -/
def Opnd.unwrap_reg (o : Opnd) : Except String MachineReg :=
  match o with
  | Opnd.Reg reg => Except.ok reg
  | _ => Except.error ("trying to unwrap into reg")

/-- Size in bits for register / memory / instruction-output operands
(Opnd::rm_num_bits); anything else is unreachable. -/
def Opnd.rm_num_bits (o : Opnd) : Except String Nat :=
  match o with
  | Opnd.Reg reg => Except.ok reg.num_bits
  | Opnd.Mem mem => Except.ok mem.num_bits
  | Opnd.InsnOut _ num_bits => Except.ok num_bits
  | _ => Except.error ("unreachable")

/-- Map instruction indices of an operand through a remap table
(Opnd::map_index); a missing table entry is the Rust index panic. -/
def Opnd.map_index (o : Opnd) (indices : List Nat) : Except String Opnd :=
  match o with
  | Opnd.InsnOut idx num_bits => do
      let new_idx ← getIdx indices idx
      Except.ok (Opnd.InsnOut new_idx num_bits)
  | Opnd.Mem { base := MemBase.InsnOut idx, disp := disp, num_bits := num_bits } => do
      let new_idx ← getIdx indices idx
      Except.ok (Opnd.Mem { base := MemBase.InsnOut new_idx, disp := disp, num_bits := num_bits })
  | _ => Except.ok o

/-- Conversion From i32 for Opnd: Imm of the sign-extended value. -/
def Opnd.from_i32 (value : Int) : Opnd := Opnd.Imm value

/-- Conversion From u32 for Opnd: UImm of the zero-extended value. -/
def Opnd.from_u32 (value : Nat) : Opnd := Opnd.UImm value

/-- Index referenced by an operand that reads a previous instruction output:
an InsnOut operand or a Mem operand whose base is an InsnOut. -/
def Opnd.refIdx (o : Opnd) : Option Nat :=
  match o with
  | Opnd.InsnOut idx _ => some idx
  | Opnd.Mem { base := MemBase.InsnOut idx, .. } => some idx
  | _ => none

namespace IR

/-- Instruction opcodes (src/yjit/src/backend/ir.rs, enum Op). -/
inductive Op where
  | Comment
  | Label
  | PosMarker
  | BakeString
  | Add
  | Sub
  | And
  | Or
  | Xor
  | Not
  | RShift
  | URShift
  | LShift
  | Load
  | LoadSExt
  | Store
  | Lea
  | LeaLabel
  | Mov
  | Test
  | Cmp
  | Jmp
  | JmpOpnd
  | Jl
  | Jbe
  | Je
  | Jne
  | Jz
  | Jnz
  | Jo
  | CSelZ
  | CSelNZ
  | CSelE
  | CSelNE
  | CSelL
  | CSelLE
  | CSelG
  | CSelGE
  | CPush
  | CPop
  | CPopInto
  | CPushAll
  | CPopAll
  | CCall
  | CRet
  | IncrCounter
  | Breakpoint
  | FrameSetup
  | FrameTeardown
  | LiveReg
deriving DecidableEq, Repr

/-- Branch target (src/yjit/src/backend/ir.rs, enum Target); code and
function addresses are modelled as Nat. -/
inductive Target where
  | CodePtr (addr : Nat)
  | FunPtr (addr : Nat)
  | Label (idx : Nat)
deriving DecidableEq, Repr

/-- Unwrap a Target into a label index (Target::unwrap_label_idx). -/
def Target.unwrap_label_idx (t : Target) : Except String Nat :=
  match t with
  | Target.Label idx => Except.ok idx
  | _ => Except.error ("trying to unwrap into label")

/-- YJIT IR instruction (src/yjit/src/backend/ir.rs, struct Insn). The
pos_marker callback carries no data relevant to the backend passes and is
modelled as a unit payload. -/
structure Insn where
  op : Op
  text : Option String
  opnds : List Opnd
  out : Opnd
  target : Option Target
  pos_marker : Option Unit
deriving DecidableEq, Repr

/-- Object into which instructions are assembled
(src/yjit/src/backend/ir.rs, struct Assembler). -/
structure Assembler where
  insns : List Insn
  live_ranges : List Nat
  label_names : List String
deriving DecidableEq, Repr

/-- Assembler::new. -/
def Assembler.new : Assembler := ⟨[], [], []⟩

/-- Assembler::new_with_label_names. -/
def Assembler.new_with_label_names (label_names : List String) : Assembler :=
  ⟨[], [], label_names⟩

/-- First loop of push_insn: for each input operand that reads a previous
instruction output, update that instruction live range to the index of the
instruction being pushed. -/
def updateRanges (insn_idx : Nat) : List Nat → List Opnd → Except String (List Nat)
  | lr, [] => Except.ok lr
  | lr, o :: rest =>
      match o.refIdx with
      | some idx => do
          let lr ← setIdx lr idx insn_idx
          updateRanges insn_idx lr rest
      | none => updateRanges insn_idx lr rest

/-- Widths of the sized input operands of an instruction, in order: the
num_bits carried by InsnOut, Mem and Reg operands (second loop of push_insn). -/
def sizedWidths : List Opnd → List Nat
  | [] => []
  | Opnd.InsnOut _ num_bits :: rest => num_bits :: sizedWidths rest
  | Opnd.Mem mem :: rest => mem.num_bits :: sizedWidths rest
  | Opnd.Reg reg :: rest => reg.num_bits :: sizedWidths rest
  | _ :: rest => sizedWidths rest

/-- Fold of the width-agreement loop of push_insn over the sized widths,
starting from the sentinel 0 for not-yet-seen. -/
def widthFold : Nat → List Nat → Except String Nat
  | w, [] => Except.ok w
  | w, x :: rest =>
      if w = 0 then widthFold x rest
      else if w ≠ x then Except.error ("operands of incompatible sizes")
      else widthFold w rest

/-- Append an instruction onto the current list of instructions
(Assembler::push_insn): update live ranges of referenced outputs, compute
the output width from the sized operands (default 64, disagreement is a
program error), store the instruction with its fresh InsnOut output and a
fresh live-range entry, and return the output operand. -/
def push_insn (asm : Assembler) (insn : Insn) : Except String (Opnd × Assembler) := do
  let insn_idx := asm.insns.length
  let lr ← updateRanges insn_idx asm.live_ranges insn.opnds
  let w ← widthFold 0 (sizedWidths insn.opnds)
  let out_num_bits := if w = 0 then 64 else w
  let out_opnd := Opnd.InsnOut insn_idx out_num_bits
  Except.ok (out_opnd,
    { asm with
      insns := asm.insns ++ [{ insn with out := out_opnd }],
      live_ranges := lr ++ [insn_idx] })

/-- Assembler::push_insn_parts: push an instruction built from components. -/
def push_insn_parts (asm : Assembler) (op : Op) (opnds : List Opnd)
    (target : Option Target) (text : Option String) (pos_marker : Option Unit) :
    Except String (Opnd × Assembler) :=
  push_insn asm { op := op, text := text, opnds := opnds, out := Opnd.None,
                  target := target, pos_marker := pos_marker }

/-- Assembler::new_label: label names must not contain spaces. -/
def new_label (asm : Assembler) (name : String) : Except String (Target × Assembler) :=
  if name.toList.any (fun c => c = Char.ofNat 32) then
    Except.error ("use underscores in label names, not spaces")
  else
    Except.ok (Target.Label asm.label_names.length,
      { asm with label_names := asm.label_names ++ [name] })

/-- Assembler::write_label: assert the label index is in range, append a
Label instruction, and push a live-range entry equal to the length of the
instruction list after the push (the source pushes self.insns.len() after
self.insns.push(insn), i.e. the new label index plus one). -/
def write_label (asm : Assembler) (label : Target) : Except String Assembler := do
  let label_idx ← label.unwrap_label_idx
  if label_idx < asm.label_names.length then
    let insn : Insn := { op := Op.Label, text := none, opnds := [], out := Opnd.None,
                         target := some label, pos_marker := none }
    Except.ok { asm with
      insns := asm.insns ++ [insn],
      live_ranges := asm.live_ranges ++ [asm.insns.length + 1] }
  else Except.error ("assertion failed: label index out of range")

/-- Assembler::add builder. -/
def add (asm : Assembler) (left : Opnd) (right : Opnd) : Except String (Opnd × Assembler) :=
  push_insn asm { op := Op.Add, text := none, opnds := [left, right], out := Opnd.None,
                  target := none, pos_marker := none }

/-- Assembler::ccall builder. -/
def ccall (asm : Assembler) (fptr : Nat) (opnds : List Opnd) : Except String (Opnd × Assembler) :=
  push_insn asm { op := Op.CCall, text := none, opnds := opnds, out := Opnd.None,
                  target := some (Target.FunPtr fptr), pos_marker := none }

end IR

/-- Callee-saved register reserved for the execution context
(src/yjit/src/backend/x86_64/mod.rs, _EC re-exported as EC). -/
def EC : Opnd := Opnd.Reg R12_REG

/-- Callee-saved register reserved for the control frame pointer (_CFP). -/
def CFP : Opnd := Opnd.Reg R13_REG

/-- Callee-saved register reserved for the VM stack pointer (_SP). -/
def SP : Opnd := Opnd.Reg RBX_REG

/-- C argument registers on x86-64 SysV
(src/yjit/src/backend/x86_64/mod.rs, _C_ARG_OPNDS re-exported as C_ARG_OPNDS). -/
def C_ARG_OPNDS : List Opnd :=
  [Opnd.Reg RDI_REG, Opnd.Reg RSI_REG, Opnd.Reg RDX_REG,
   Opnd.Reg RCX_REG, Opnd.Reg R8_REG, Opnd.Reg R9_REG]

/-- C return value register on x86-64 (src/yjit/src/backend/x86_64/mod.rs). -/
def C_RET_REG : Reg := RAX_REG

/-- C return value operand (_C_RET_OPND re-exported as C_RET_OPND). -/
def C_RET_OPND : Opnd := Opnd.Reg RAX_REG

namespace IR

/-- Set bit i of the pool bitmap (pool |= 1 << i). -/
def poolSet (pool : Nat) (i : Nat) : Nat := pool ||| (1 <<< i)

/-- Clear bit i of the pool bitmap (pool &= !(1 << i), exact on Nat). -/
def poolClear (pool : Nat) (i : Nat) : Nat :=
  pool - (if pool.testBit i then 1 <<< i else 0)

/-- Scan loop of alloc_reg in Assembler::alloc_regs: find the first pool
index whose bit is clear, mark it and return the register at that index. -/
def allocRegGo (pool : Nat) : Nat → List Reg → Except String (Reg × Nat)
  | _, [] => Except.error ("Register spill not supported")
  | index, reg :: rest =>
      if pool &&& (1 <<< index) = 0 then Except.ok (reg, poolSet pool index)
      else allocRegGo pool (index + 1) rest

/-- Allocate the first free register of the pool (alloc_reg in
Assembler::alloc_regs); pool exhaustion is the register-spill program error. -/
def alloc_reg (pool : Nat) (regs : List Reg) : Except String (Reg × Nat) :=
  allocRegGo pool 0 regs

/-- Allocate a specific register (take_reg in Assembler::alloc_regs): if a
register with the same reg_no occurs in the pool list, assert its bit is
clear and set it; otherwise the pool is untouched. The requested register
itself is returned either way. -/
def take_reg (pool : Nat) (regs : List Reg) (reg : Reg) : Except String (Reg × Nat) :=
  match regs.findIdx? (fun elem => elem.reg_no = reg.reg_no) with
  | some reg_index =>
      if pool &&& (1 <<< reg_index) = 0 then Except.ok (reg, poolSet pool reg_index)
      else Except.error ("register already allocated")
  | none => Except.ok (reg, pool)

/-- Return a register to the pool (dealloc_reg in Assembler::alloc_regs):
clear its bit when its reg_no occurs in the pool list, otherwise no-op. -/
def dealloc_reg (pool : Nat) (regs : List Reg) (reg : Reg) : Nat :=
  match regs.findIdx? (fun elem => elem.reg_no = reg.reg_no) with
  | some reg_index => poolClear pool reg_index
  | none => pool

/-- Reclaim loop of Assembler::alloc_regs: for every operand that reads a
previous instruction output, assert the reference points backwards, and when
this instruction is the last use, return the register assigned to the
referenced instruction in the new list to the pool (it must have one). -/
def allocReclaim (regs : List Reg) (lr : List Nat) (acc : Assembler) (index : Nat) :
    Nat → List Opnd → Except String Nat
  | pool, [] => Except.ok pool
  | pool, o :: rest =>
      match o.refIdx with
      | some start_index =>
          if start_index < index then do
            let last_use ← getIdx lr start_index
            if last_use = index then do
              let prev ← getIdx acc.insns start_index
              match prev.out with
              | Opnd.Reg reg =>
                  allocReclaim regs lr acc index (dealloc_reg pool regs reg) rest
              | _ => Except.error ("no register allocated for insn")
            else allocReclaim regs lr acc index pool rest
          else Except.error ("assertion failed: start_index < index")
      | none => allocReclaim regs lr acc index pool rest

/-- Register-reuse branch of Assembler::alloc_regs: when the first input
operand is an InsnOut whose live range ends at this instruction and the
referenced instruction got a register, take that same register. -/
def allocReuse (regs : List Reg) (lr : List Nat) (acc : Assembler) (index : Nat)
    (pool : Nat) (opnds : List Opnd) : Except String (Opnd × Nat) :=
  match opnds with
  | Opnd.InsnOut idx _ :: _ => do
      let last_use ← getIdx lr idx
      if last_use = index then do
        let prev ← getIdx acc.insns idx
        match prev.out with
        | Opnd.Reg reg => do
            let (r, pool) ← take_reg pool regs reg
            Except.ok (Opnd.Reg r, pool)
        | _ => Except.ok (Opnd.None, pool)
      else Except.ok (Opnd.None, pool)
  | _ => Except.ok (Opnd.None, pool)

/-- Output-assignment step of Assembler::alloc_regs: when the output of the
instruction is used later, take the C return register for a CCall, else try
to reuse the dying register of the first operand, else take the specific
register of a LiveReg, else allocate the first free pool register. -/
def allocChooseOut (regs : List Reg) (lr : List Nat) (acc : Assembler) (index : Nat)
    (pool : Nat) (insn : Insn) : Except String (Opnd × Nat) := do
  let last_use ← getIdx lr index
  if last_use = index then Except.ok (Opnd.None, pool)
  else if insn.op = Op.CCall then do
    let (r, pool) ← take_reg pool regs C_RET_REG
    Except.ok (Opnd.Reg r, pool)
  else do
    let (out_reg, pool) ← allocReuse regs lr acc index pool insn.opnds
    if out_reg = Opnd.None then
      if insn.op = Op.LiveReg then do
        let first ← getIdx insn.opnds 0
        let reg ← first.unwrap_reg
        let (r, pool) ← take_reg pool regs reg
        Except.ok (Opnd.Reg r, pool)
      else do
        let (r, pool) ← alloc_reg pool regs
        Except.ok (Opnd.Reg r, pool)
    else Except.ok (out_reg, pool)

/-- Operand-rewrite loop of Assembler::alloc_regs: replace every InsnOut by
the out of the referenced instruction in the new list, and every Mem with an
InsnOut base by a Mem based on the register of that out. -/
def allocRewrite (acc : Assembler) : List Opnd → Except String (List Opnd)
  | [] => Except.ok []
  | o :: rest => do
      let o1 ←
        match o with
        | Opnd.InsnOut idx _ => do
            let prev ← getIdx acc.insns idx
            Except.ok prev.out
        | Opnd.Mem { base := MemBase.InsnOut idx, disp := disp, num_bits := num_bits } => do
            let prev ← getIdx acc.insns idx
            let out_reg ← prev.out.unwrap_reg
            Except.ok (Opnd.Mem { base := MemBase.Reg out_reg.reg_no, disp := disp,
                                  num_bits := num_bits })
        | _ => Except.ok o
      let rest1 ← allocRewrite acc rest
      Except.ok (o1 :: rest1)

/-- Overwrite the out field of the last pushed instruction
(asm.insns[num_insns - 1].out = out_reg at the end of the alloc_regs loop). -/
def setLastOut (asm : Assembler) (out : Opnd) : Assembler :=
  match asm.insns.getLast? with
  | some last => { asm with insns := asm.insns.dropLast ++ [{ last with out := out }] }
  | none => asm

/-- Body of the Assembler::alloc_regs loop for one instruction: reclaim dead
registers, assert the pool is empty at a CCall, choose the output register,
rewrite the operands, push the rewritten instruction onto the new assembler
and overwrite its out (narrowed to the computed output width). -/
def allocRegsStep (regs : List Reg) (lr : List Nat) (index : Nat) (pool : Nat)
    (acc : Assembler) (insn : Insn) : Except String (Nat × Assembler) := do
  let pool ← allocReclaim regs lr acc index pool insn.opnds
  if insn.op = Op.CCall ∧ pool ≠ 0 then
    Except.error ("register lives past C function call")
  else do
    let (out_reg, pool) ← allocChooseOut regs lr acc index pool insn
    let reg_opnds ← allocRewrite acc insn.opnds
    let (out_opnd, acc) ← push_insn_parts acc insn.op reg_opnds insn.target insn.text
        insn.pos_marker
    let out_final ←
      match out_reg with
      | Opnd.Reg reg => do
          let num_out_bits ← out_opnd.rm_num_bits
          let narrowed ← reg.sub_reg num_out_bits
          Except.ok (Opnd.Reg narrowed)
      | _ => Except.ok out_reg
    Except.ok (pool, setLastOut acc out_final)

/-- Main loop of Assembler::alloc_regs over the drained instruction list,
threading the loop index, the pool bitmap and the new assembler. -/
def allocRegsLoop (regs : List Reg) (lr : List Nat) :
    Nat → Nat → Assembler → List Insn → Except String (Nat × Assembler)
  | _, pool, acc, [] => Except.ok (pool, acc)
  | index, pool, acc, insn :: rest => do
      let (pool, acc) ← allocRegsStep regs lr index pool acc insn
      allocRegsLoop regs lr (index + 1) pool acc rest

/-- Assembler::alloc_regs up to (and excluding) the final empty-pool
assertion: run the loop from an empty pool over a fresh assembler that
inherits the label names, returning the final pool with the new assembler. -/
def allocRegsRun (asm : Assembler) (regs : List Reg) : Except String (Nat × Assembler) :=
  allocRegsLoop regs asm.live_ranges 0 0 (Assembler.new_with_label_names asm.label_names)
    asm.insns

/-- Assembler::alloc_regs: run the linear-scan loop and assert that every
register was returned to the pool. -/
def alloc_regs (asm : Assembler) (regs : List Reg) : Except String Assembler := do
  let (pool, acc) ← allocRegsRun asm regs
  if pool = 0 then Except.ok acc
  else Except.error ("Expected all registers to be returned to the pool")

end IR

namespace X86

/-- Branch target of the newer IR draft used by
src/yjit/src/backend/x86_64/mod.rs; it extends the Target of the older draft
with the SideExitPtr variant matched by the emitter. The enum definition
itself is not under src/, so the variants are taken from their uses there. -/
inductive Target where
  | CodePtr (addr : Nat)
  | SideExitPtr (addr : Nat)
  | FunPtr (addr : Nat)
  | Label (idx : Nat)
deriving DecidableEq, Repr

set_option maxHeartbeats 3200000 in
/-- Modelled from the spec: the newer draft keeps each instruction as one
enum variant with named operand fields (spec section 9, open questions); the
enum definition is not under src/, so the variants and their fields are
taken from their uses in src/yjit/src/backend/x86_64/mod.rs. The PosMarker
callback is modelled as a unit payload. -/
inductive Insn where
  | Comment (text : String)
  | Label (target : Target)
  | PosMarker (marker : Unit)
  | BakeString (text : String)
  | Add (left : Opnd) (right : Opnd) (out : Opnd)
  | Sub (left : Opnd) (right : Opnd) (out : Opnd)
  | And (left : Opnd) (right : Opnd) (out : Opnd)
  | Or (left : Opnd) (right : Opnd) (out : Opnd)
  | Xor (left : Opnd) (right : Opnd) (out : Opnd)
  | Not (opnd : Opnd) (out : Opnd)
  | LShift (opnd : Opnd) (shift : Opnd) (out : Opnd)
  | RShift (opnd : Opnd) (shift : Opnd) (out : Opnd)
  | URShift (opnd : Opnd) (shift : Opnd) (out : Opnd)
  | Store (dest : Opnd) (src : Opnd)
  | Load (opnd : Opnd) (out : Opnd)
  | LoadInto (dest : Opnd) (opnd : Opnd)
  | LoadSExt (opnd : Opnd) (out : Opnd)
  | Mov (dest : Opnd) (src : Opnd)
  | Lea (opnd : Opnd) (out : Opnd)
  | LeaLabel (target : Target) (out : Opnd)
  | CPush (opnd : Opnd)
  | CPop (out : Opnd)
  | CPopInto (opnd : Opnd)
  | CPushAll
  | CPopAll
  | CCall (opnds : List Opnd) (fptr : Nat) (out : Opnd)
  | CRet (opnd : Opnd)
  | Cmp (left : Opnd) (right : Opnd)
  | Test (left : Opnd) (right : Opnd)
  | JmpOpnd (opnd : Opnd)
  | Jmp (target : Target)
  | Je (target : Target)
  | Jne (target : Target)
  | Jl (target : Target)
  | Jbe (target : Target)
  | Jz (target : Target)
  | Jnz (target : Target)
  | Jo (target : Target)
  | IncrCounter (mem : Opnd) (value : Opnd)
  | Breakpoint
  | CSelZ (truthy : Opnd) (falsy : Opnd) (out : Opnd)
  | CSelNZ (truthy : Opnd) (falsy : Opnd) (out : Opnd)
  | CSelE (truthy : Opnd) (falsy : Opnd) (out : Opnd)
  | CSelNE (truthy : Opnd) (falsy : Opnd) (out : Opnd)
  | CSelL (truthy : Opnd) (falsy : Opnd) (out : Opnd)
  | CSelLE (truthy : Opnd) (falsy : Opnd) (out : Opnd)
  | CSelG (truthy : Opnd) (falsy : Opnd) (out : Opnd)
  | CSelGE (truthy : Opnd) (falsy : Opnd) (out : Opnd)
  | LiveReg (opnd : Opnd) (out : Opnd)
  | FrameSetup
  | FrameTeardown
  | PadInvalPatch
deriving Repr

/-- Modelled from the spec: Insn::opnd_iter of the newer draft (not under
src/) iterates the input operand fields of a variant in field order; the out
field is not an input operand. -/
def Insn.opnds : Insn → List Opnd
  | .Comment _ => []
  | .Label _ => []
  | .PosMarker _ => []
  | .BakeString _ => []
  | .Add l r _ => [l, r]
  | .Sub l r _ => [l, r]
  | .And l r _ => [l, r]
  | .Or l r _ => [l, r]
  | .Xor l r _ => [l, r]
  | .Not o _ => [o]
  | .LShift o s _ => [o, s]
  | .RShift o s _ => [o, s]
  | .URShift o s _ => [o, s]
  | .Store d s => [d, s]
  | .Load o _ => [o]
  | .LoadInto d o => [d, o]
  | .LoadSExt o _ => [o]
  | .Mov d s => [d, s]
  | .Lea o _ => [o]
  | .LeaLabel _ _ => []
  | .CPush o => [o]
  | .CPop _ => []
  | .CPopInto o => [o]
  | .CPushAll => []
  | .CPopAll => []
  | .CCall os _ _ => os
  | .CRet o => [o]
  | .Cmp l r => [l, r]
  | .Test l r => [l, r]
  | .JmpOpnd o => [o]
  | .Jmp _ => []
  | .Je _ => []
  | .Jne _ => []
  | .Jl _ => []
  | .Jbe _ => []
  | .Jz _ => []
  | .Jnz _ => []
  | .Jo _ => []
  | .IncrCounter m v => [m, v]
  | .Breakpoint => []
  | .CSelZ t f _ => [t, f]
  | .CSelNZ t f _ => [t, f]
  | .CSelE t f _ => [t, f]
  | .CSelNE t f _ => [t, f]
  | .CSelL t f _ => [t, f]
  | .CSelLE t f _ => [t, f]
  | .CSelG t f _ => [t, f]
  | .CSelGE t f _ => [t, f]
  | .LiveReg o _ => [o]
  | .FrameSetup => []
  | .FrameTeardown => []
  | .PadInvalPatch => []

/-- Modelled from the spec: writing the input operand fields of a variant
back from a list, positionally, as the opnd_iter_mut loop of the splitter
does; a list of a different length cannot arise from that loop. -/
def Insn.withOpnds : Insn → List Opnd → Insn
  | .Add _ _ o, [l, r] => .Add l r o
  | .Sub _ _ o, [l, r] => .Sub l r o
  | .And _ _ o, [l, r] => .And l r o
  | .Or _ _ o, [l, r] => .Or l r o
  | .Xor _ _ o, [l, r] => .Xor l r o
  | .Not _ o, [a] => .Not a o
  | .LShift _ _ o, [a, s] => .LShift a s o
  | .RShift _ _ o, [a, s] => .RShift a s o
  | .URShift _ _ o, [a, s] => .URShift a s o
  | .Store _ _, [d, s] => .Store d s
  | .Load _ o, [a] => .Load a o
  | .LoadInto _ _, [d, a] => .LoadInto d a
  | .LoadSExt _ o, [a] => .LoadSExt a o
  | .Mov _ _, [d, s] => .Mov d s
  | .Lea _ o, [a] => .Lea a o
  | .CPush _, [a] => .CPush a
  | .CPopInto _, [a] => .CPopInto a
  | .CCall _ fptr o, os => .CCall os fptr o
  | .CRet _, [a] => .CRet a
  | .Cmp _ _, [l, r] => .Cmp l r
  | .Test _ _, [l, r] => .Test l r
  | .JmpOpnd _, [a] => .JmpOpnd a
  | .IncrCounter _ _, [m, v] => .IncrCounter m v
  | .CSelZ _ _ o, [t, f] => .CSelZ t f o
  | .CSelNZ _ _ o, [t, f] => .CSelNZ t f o
  | .CSelE _ _ o, [t, f] => .CSelE t f o
  | .CSelNE _ _ o, [t, f] => .CSelNE t f o
  | .CSelL _ _ o, [t, f] => .CSelL t f o
  | .CSelLE _ _ o, [t, f] => .CSelLE t f o
  | .CSelG _ _ o, [t, f] => .CSelG t f o
  | .CSelGE _ _ o, [t, f] => .CSelGE t f o
  | .LiveReg _ o, [a] => .LiveReg a o
  | insn, _ => insn

/-- Modelled from the spec: Insn::out_opnd of the newer draft returns
whether the variant has an output slot. -/
def Insn.hasOut : Insn → Bool
  | .Add _ _ _ => true
  | .Sub _ _ _ => true
  | .And _ _ _ => true
  | .Or _ _ _ => true
  | .Xor _ _ _ => true
  | .Not _ _ => true
  | .LShift _ _ _ => true
  | .RShift _ _ _ => true
  | .URShift _ _ _ => true
  | .Load _ _ => true
  | .LoadSExt _ _ => true
  | .Lea _ _ => true
  | .LeaLabel _ _ => true
  | .CPop _ => true
  | .CCall _ _ _ => true
  | .CSelZ _ _ _ => true
  | .CSelNZ _ _ _ => true
  | .CSelE _ _ _ => true
  | .CSelNE _ _ _ => true
  | .CSelL _ _ _ => true
  | .CSelLE _ _ _ => true
  | .CSelG _ _ _ => true
  | .CSelGE _ _ _ => true
  | .LiveReg _ _ => true
  | _ => false

/-- Modelled from the spec: Insn::out_opnd_mut assignment of the newer
draft, replacing the output slot of a variant that has one. -/
def Insn.setOut : Insn → Opnd → Insn
  | .Add l r _, o => .Add l r o
  | .Sub l r _, o => .Sub l r o
  | .And l r _, o => .And l r o
  | .Or l r _, o => .Or l r o
  | .Xor l r _, o => .Xor l r o
  | .Not a _, o => .Not a o
  | .LShift a s _, o => .LShift a s o
  | .RShift a s _, o => .RShift a s o
  | .URShift a s _, o => .URShift a s o
  | .Load a _, o => .Load a o
  | .LoadSExt a _, o => .LoadSExt a o
  | .Lea a _, o => .Lea a o
  | .LeaLabel t _, o => .LeaLabel t o
  | .CPop _, o => .CPop o
  | .CCall os f _, o => .CCall os f o
  | .CSelZ t f _, o => .CSelZ t f o
  | .CSelNZ t f _, o => .CSelNZ t f o
  | .CSelE t f _, o => .CSelE t f o
  | .CSelNE t f _, o => .CSelNE t f o
  | .CSelL t f _, o => .CSelL t f o
  | .CSelLE t f _, o => .CSelLE t f o
  | .CSelG t f _, o => .CSelG t f o
  | .CSelGE t f _, o => .CSelGE t f o
  | .LiveReg a _, o => .LiveReg a o
  | insn, _ => insn

/-- Assembler of the newer draft: instruction list, parallel live ranges and
label names, as in the older draft. -/
structure Assembler where
  insns : List Insn
  live_ranges : List Nat
  label_names : List String
deriving Repr

/-- Modelled from the spec: Opnd::num_bits of the newer draft returns the
width of a Reg, Mem or InsnOut operand and none otherwise. -/
def opndNumBits : Opnd → Option Nat
  | Opnd.Reg reg => some reg.num_bits
  | Opnd.Mem mem => some mem.num_bits
  | Opnd.InsnOut _ num_bits => some num_bits
  | _ => none

/-- Fold of Opnd::match_num_bits_iter: the common width of the sized
operands, a disagreement being a program error. -/
def matchNumBitsGo : Option Nat → List Opnd → Except String Nat
  | value, [] => Except.ok (value.getD 64)
  | value, o :: rest =>
      match opndNumBits o with
      | some num_bits =>
          match value with
          | none => matchNumBitsGo (some num_bits) rest
          | some v =>
              if v = num_bits then matchNumBitsGo (some v) rest
              else Except.error ("operands of incompatible sizes")
      | none => matchNumBitsGo value rest

/-- Modelled from the spec: Opnd::match_num_bits of the newer draft (spec
section 4.3: the output width is the common num_bits of all sized operands,
default 64, and conflicting widths are a program error). -/
def match_num_bits (opnds : List Opnd) : Except String Nat :=
  matchNumBitsGo none opnds

/-- Modelled from the spec: Assembler::next_opnd_out of the newer draft, an
InsnOut for the next instruction index at the given width. -/
def next_opnd_out (asm : Assembler) (num_bits : Nat) : Opnd :=
  Opnd.InsnOut asm.insns.length num_bits

/-- Modelled from the spec: Assembler::push_insn of the newer draft, which
updates the live range of every referenced instruction output to the index
being pushed and appends a fresh live-range entry (spec section 4.3); the
output width is computed by the builders in this draft. -/
def push_insn (asm : Assembler) (insn : Insn) : Except String Assembler := do
  let insn_idx := asm.insns.length
  let lr ← updateRangesX insn_idx asm.live_ranges insn.opnds
  Except.ok { asm with insns := asm.insns ++ [insn], live_ranges := lr ++ [insn_idx] }
where
  updateRangesX (insn_idx : Nat) : List Nat → List Opnd → Except String (List Nat)
    | lr, [] => Except.ok lr
    | lr, o :: rest =>
        match o.refIdx with
        | some idx => do
            let lr ← setIdx lr idx insn_idx
            updateRangesX insn_idx lr rest
        | none => updateRangesX insn_idx lr rest

/-- Modelled from the spec: Assembler::load builder of the newer draft,
pushing a Load whose output takes the width of the single operand. -/
def load (asm : Assembler) (opnd : Opnd) : Except String (Opnd × Assembler) := do
  let num_bits ← match_num_bits [opnd]
  let out := next_opnd_out asm num_bits
  let asm ← push_insn asm (Insn.Load opnd out)
  Except.ok (out, asm)

/-- Modelled from the spec: Assembler::load_into builder of the newer draft. -/
def load_into (asm : Assembler) (dest : Opnd) (opnd : Opnd) : Except String Assembler :=
  push_insn asm (Insn.LoadInto dest opnd)

/-- Modelled from the spec: Assembler::ccall builder of the newer draft. -/
def ccall (asm : Assembler) (fptr : Nat) (opnds : List Opnd) :
    Except String (Opnd × Assembler) := do
  let num_bits ← match_num_bits opnds
  let out := next_opnd_out asm num_bits
  let asm ← push_insn asm (Insn.CCall opnds fptr out)
  Except.ok (out, asm)

/-- Modelled from the spec: Assembler::mov builder of the newer draft. -/
def mov (asm : Assembler) (dest : Opnd) (src : Opnd) : Except String Assembler :=
  push_insn asm (Insn.Mov dest src)

/-- Modelled from the spec: Assembler::not builder of the newer draft,
pushing a Not whose output takes the width of the single operand. -/
def notBuilder (asm : Assembler) (opnd : Opnd) : Except String (Opnd × Assembler) := do
  let num_bits ← match_num_bits [opnd]
  let out := next_opnd_out asm num_bits
  let asm ← push_insn asm (Insn.Not opnd out)
  Except.ok (out, asm)

end X86

namespace X86

/-- Operand-mapping phase of the x86_split loop
(src/yjit/src/backend/x86_64/mod.rs, the while-let over opnd_iter_mut):
operands of Load / LoadInto instructions are only index-mapped; a Value
operand of any other instruction is promoted through an inserted Load when
it is not a special constant or its signed value needs more than 32 bits,
and is rewritten to a UImm otherwise; all remaining operands are
index-mapped. -/
def splitMapOpnd (indices : List Nat) (is_load : Bool) (asm : Assembler) (opnd : Opnd) :
    Except String (Opnd × Assembler) :=
  if is_load then do
    let o ← opnd.map_index indices
    Except.ok (o, asm)
  else
    match opnd with
    | Opnd.Value value =>
        if ¬ value.special_const_p ∨ 32 < imm_num_bits value.as_i64 then do
          let o ← opnd.map_index indices
          load asm o
        else
          Except.ok (Opnd.UImm value.as_u64, asm)
    | _ => do
        let o ← opnd.map_index indices
        Except.ok (o, asm)

/-- Operand-mapping phase applied to the operand list of one instruction,
in order, collecting the rewritten operands. -/
def splitMapOpnds (indices : List Nat) (is_load : Bool) :
    Assembler → List Opnd → Except String (List Opnd × Assembler)
  | asm, [] => Except.ok ([], asm)
  | asm, o :: rest => do
      let (o1, asm) ← splitMapOpnd indices is_load asm o
      let (rest1, asm) ← splitMapOpnds indices is_load asm rest
      Except.ok (o1 :: rest1, asm)

/-- Binary-ALU arm of x86_split (Add / Sub / And / Or / Xor): dispatch on
the unmapped operands; both loaded when both are memory, the left loaded
when the left is memory and the right an immediate, when the left is an
InsnOut that lives past this instruction, or when the left is memory or a
register; then the output is recomputed and the instruction pushed. -/
def splitALUArm (con : Opnd → Opnd → Opnd → Insn) (lr : List Nat) (index : Nat)
    (asm : Assembler) (left : Opnd) (right : Opnd) (uleft : Opnd) (uright : Opnd) :
    Except String Assembler := do
  let (left, right, asm) ←
    match uleft, uright with
    | Opnd.Mem _, Opnd.Mem _ => do
        let (l, asm) ← load asm left
        let (r, asm) ← load asm right
        Except.ok (l, r, asm)
    | Opnd.Mem _, Opnd.UImm _ => do
        let (l, asm) ← load asm left
        Except.ok (l, right, asm)
    | Opnd.Mem _, Opnd.Imm _ => do
        let (l, asm) ← load asm left
        Except.ok (l, right, asm)
    | Opnd.InsnOut idx _, _ => do
        let last_use ← getIdx lr idx
        if index < last_use then do
          let (l, asm) ← load asm left
          Except.ok (l, right, asm)
        else Except.ok (left, right, asm)
    | Opnd.Mem _, _ => do
        let (l, asm) ← load asm left
        Except.ok (l, right, asm)
    | Opnd.Reg _, _ => do
        let (l, asm) ← load asm left
        Except.ok (l, right, asm)
    | _, _ => Except.ok (left, right, asm)
  let num_bits ← match_num_bits [left, right]
  push_insn asm (con left right (next_opnd_out asm num_bits))

/-- Cmp / Test arm of x86_split: when both (already mapped) operands are
memory, load the right one. -/
def splitCmpArm (con : Opnd → Opnd → Insn) (asm : Assembler) (left : Opnd) (right : Opnd) :
    Except String Assembler :=
  match left, right with
  | Opnd.Mem _, Opnd.Mem _ => do
      let (loaded, asm) ← load asm right
      push_insn asm (con left loaded)
  | _, _ => push_insn asm (con left right)

/-- Shift arm of x86_split (LShift / RShift / URShift): these modify the
first operand in place, so it is loaded when the unmapped first operand is
an InsnOut living past this instruction or is memory or a register. -/
def splitShiftArm (con : Opnd → Opnd → Opnd → Insn) (lr : List Nat) (index : Nat)
    (asm : Assembler) (opnd : Opnd) (shift : Opnd) (uopnd : Opnd) :
    Except String Assembler := do
  let (opnd, asm) ←
    match uopnd with
    | Opnd.InsnOut idx _ => do
        let last_use ← getIdx lr idx
        if index < last_use then load asm opnd
        else Except.ok (opnd, asm)
    | Opnd.Mem _ => load asm opnd
    | Opnd.Reg _ => load asm opnd
    | _ => Except.ok (opnd, asm)
  let num_bits ← match_num_bits [opnd, shift]
  push_insn asm (con opnd shift (next_opnd_out asm num_bits))

/-- Conditional-select arm of x86_split (CSel*): load the truthy operand
when the unmapped truthy is an InsnOut living past this instruction or is
any immediate or Value; load the (mapped) falsy operand when it is an
immediate. -/
def splitCSelArm (con : Opnd → Opnd → Opnd → Insn) (lr : List Nat) (index : Nat)
    (asm : Assembler) (truthy : Opnd) (falsy : Opnd) (utruthy : Opnd) :
    Except String Assembler := do
  let (truthy, asm) ←
    match utruthy with
    | Opnd.InsnOut idx _ => do
        let last_use ← getIdx lr idx
        if index < last_use then load asm truthy
        else Except.ok (truthy, asm)
    | Opnd.UImm _ => load asm truthy
    | Opnd.Imm _ => load asm truthy
    | Opnd.Value _ => load asm truthy
    | _ => Except.ok (truthy, asm)
  let (falsy, asm) ←
    match falsy with
    | Opnd.UImm _ => load asm falsy
    | Opnd.Imm _ => load asm falsy
    | _ => Except.ok (falsy, asm)
  let num_bits ← match_num_bits [truthy, falsy]
  push_insn asm (con truthy falsy (next_opnd_out asm num_bits))

/-- Mov arm of x86_split: a memory-to-memory move loads the source first,
and a move of an immediate needing more than 32 signed bits into memory
loads the immediate first. -/
def splitMovArm (asm : Assembler) (dest : Opnd) (src : Opnd) : Except String Assembler :=
  match dest, src with
  | Opnd.Mem _, Opnd.Mem _ => do
      let (opnd1, asm) ← load asm src
      mov asm dest opnd1
  | Opnd.Mem _, Opnd.UImm value =>
      if 32 < imm_num_bits (u64_as_i64 value) then do
        let (opnd1, asm) ← load asm src
        mov asm dest opnd1
      else mov asm dest src
  | Opnd.Mem _, Opnd.Imm value =>
      if 32 < imm_num_bits value then do
        let (opnd1, asm) ← load asm src
        mov asm dest opnd1
      else mov asm dest src
  | _, _ => mov asm dest src

/-- Not arm of x86_split: the in-place NOT loads its operand when the
unmapped operand is an InsnOut living past this instruction or is memory or
a register. -/
def splitNotArm (lr : List Nat) (index : Nat) (asm : Assembler) (opnd : Opnd)
    (uopnd : Opnd) : Except String Assembler := do
  let (opnd0, asm) ←
    match uopnd with
    | Opnd.InsnOut idx _ => do
        let last_use ← getIdx lr idx
        if index < last_use then load asm opnd
        else Except.ok (opnd, asm)
    | Opnd.Mem _ => load asm opnd
    | Opnd.Reg _ => load asm opnd
    | _ => Except.ok (opnd, asm)
  let (_, asm) ← notBuilder asm opnd0
  Except.ok asm

/-- Argument loop of the CCall arm of x86_split: a LoadInto of each argument
into the corresponding C argument register, in order. -/
def splitCCallArgs : Assembler → Nat → List Opnd → Except String Assembler
  | asm, _, [] => Except.ok asm
  | asm, idx, opnd :: rest => do
      let asm ← load_into asm (C_ARG_OPNDS.getD idx Opnd.None) opnd
      splitCCallArgs asm (idx + 1) rest

/-- CCall arm of x86_split: assert that the arguments fit the ABI argument
registers, load each argument into its argument register, then push a CCall
with no argument operands. -/
def splitCCallArm (asm : Assembler) (opnds : List Opnd) (fptr : Nat) :
    Except String Assembler := do
  if opnds.length ≤ C_ARG_OPNDS.length then do
    let asm ← splitCCallArgs asm 0 opnds
    let (_, asm) ← ccall asm fptr []
    Except.ok asm
  else Except.error ("assertion failed: opnds.len() <= C_ARG_OPNDS.len()")

/-- Default arm of x86_split: when the instruction has an output slot,
recompute it from the (already mapped) operand widths, then push the
instruction unchanged. -/
def splitDefault (asm : Assembler) (insn : Insn) : Except String Assembler := do
  if insn.hasOut then do
    let out_num_bits ← match_num_bits insn.opnds
    push_insn asm (insn.setOut (next_opnd_out asm out_num_bits))
  else push_insn asm insn

/-- Body of the x86_split loop for one instruction: run the operand-mapping
phase over the input operands (remembering the unmapped originals), then
dispatch on the instruction as the source match does. Arms that read
unmapped operands receive them positionally; the operand lists of the
matched variants always have the matched length, so the residual
fall-through to the default arm for those variants is unreachable. -/
def splitInsn (lr : List Nat) (index : Nat) (indices : List Nat) (asm : Assembler)
    (insn : Insn) : Except String Assembler := do
  let is_load := match insn with | .Load _ _ => true | .LoadInto _ _ => true | _ => false
  let unmapped := insn.opnds
  let (mapped, asm) ← splitMapOpnds indices is_load asm unmapped
  let insn := insn.withOpnds mapped
  match insn, unmapped with
  | .Add l r _, ul :: ur :: _ => splitALUArm .Add lr index asm l r ul ur
  | .Sub l r _, ul :: ur :: _ => splitALUArm .Sub lr index asm l r ul ur
  | .And l r _, ul :: ur :: _ => splitALUArm .And lr index asm l r ul ur
  | .Or l r _, ul :: ur :: _ => splitALUArm .Or lr index asm l r ul ur
  | .Xor l r _, ul :: ur :: _ => splitALUArm .Xor lr index asm l r ul ur
  | .Cmp l r, _ => splitCmpArm .Cmp asm l r
  | .Test l r, _ => splitCmpArm .Test asm l r
  | .LShift o s _, uo :: _ => splitShiftArm .LShift lr index asm o s uo
  | .RShift o s _, uo :: _ => splitShiftArm .RShift lr index asm o s uo
  | .URShift o s _, uo :: _ => splitShiftArm .URShift lr index asm o s uo
  | .CSelZ t f _, ut :: _ => splitCSelArm .CSelZ lr index asm t f ut
  | .CSelNZ t f _, ut :: _ => splitCSelArm .CSelNZ lr index asm t f ut
  | .CSelE t f _, ut :: _ => splitCSelArm .CSelE lr index asm t f ut
  | .CSelNE t f _, ut :: _ => splitCSelArm .CSelNE lr index asm t f ut
  | .CSelL t f _, ut :: _ => splitCSelArm .CSelL lr index asm t f ut
  | .CSelLE t f _, ut :: _ => splitCSelArm .CSelLE lr index asm t f ut
  | .CSelG t f _, ut :: _ => splitCSelArm .CSelG lr index asm t f ut
  | .CSelGE t f _, ut :: _ => splitCSelArm .CSelGE lr index asm t f ut
  | .Mov d s, _ => splitMovArm asm d s
  | .Not o _, uo :: _ => splitNotArm lr index asm o uo
  | .CCall os fptr _, _ => splitCCallArm asm os fptr
  | other, _ => splitDefault asm other

/-- Main loop of x86_split over the drained instruction list: process each
instruction, then record the index of the last instruction of the new list
in the old-to-new index table (map_insn_index). -/
def splitLoop (lr : List Nat) :
    Nat → List Nat → Assembler → List Insn → Except String Assembler
  | _, _, asm, [] => Except.ok asm
  | index, indices, asm, insn :: rest => do
      let asm ← splitInsn lr index indices asm insn
      splitLoop lr (index + 1) (indices ++ [asm.insns.length - 1]) asm rest

/-- Assembler::x86_split (src/yjit/src/backend/x86_64/mod.rs): take the live
ranges, build a fresh assembler inheriting the label names, and run the
split loop over the drained instructions. -/
def x86_split (self : Assembler) : Except String Assembler :=
  splitLoop self.live_ranges 0 [] ⟨[], [], self.label_names⟩ self.insns

end X86

section Claims

/-- Seven-instruction sequence of the live-range reuse scenario:
t1 = add(EC, 1); add(EC, 2); t2 = add(EC, 3); add(EC, 4); add(t1, t2);
t3 = add(EC, 5); add(t3, 6). -/
def buildC9 : Except String IR.Assembler := do
  let a := IR.Assembler.new
  let (t1, a) ← IR.add a EC (Opnd.UImm 1)
  let (_, a) ← IR.add a EC (Opnd.UImm 2)
  let (t2, a) ← IR.add a EC (Opnd.UImm 3)
  let (_, a) ← IR.add a EC (Opnd.UImm 4)
  let (_, a) ← IR.add a t1 t2
  let (t3, a) ← IR.add a EC (Opnd.UImm 5)
  let (_, a) ← IR.add a t3 (Opnd.UImm 6)
  Except.ok a

/-- C9: on the seven-instruction sequence above, alloc_regs with a pool of
exactly two registers completes without a spill or any program error, and
the outputs of instructions 0 and 5 are assigned pool register 0 while the
output of instruction 2 is assigned pool register 1 (the other outputs are
unused and stay None). -/
theorem C9_live_range_reuse :
    (buildC9.bind (fun a => IR.alloc_regs a [RAX_REG, RCX_REG])).map
        (fun a => a.insns.map (fun i => i.out)) =
      Except.ok [Opnd.Reg RAX_REG, Opnd.None, Opnd.Reg RCX_REG, Opnd.None,
                 Opnd.None, Opnd.Reg RAX_REG, Opnd.None] := by
  rfl

/-- C8: Opnd::mem on an InsnOut base ignores the supplied width. Evaluating
the code at the failing input mem(32, InsnOut(0, 64), 0) yields a Mem
operand of width 64 (the width of the base, because the Rust pattern
binding num_bits shadows the parameter), so rm_num_bits returns 64 where
the claim requires the supplied 32. -/
theorem C8_mem_insnout_base_ignores_width :
    Opnd.mem 32 (Opnd.InsnOut 0 64) 0 =
      Except.ok (Opnd.Mem { base := MemBase.InsnOut 0, disp := 0, num_bits := 64 }) ∧
    (Opnd.Mem { base := MemBase.InsnOut 0, disp := 0, num_bits := 64 }).rm_num_bits =
      Except.ok 64 := by
  exact ⟨rfl, rfl⟩

/-- Assembler obtained by creating a label and writing it on an otherwise
empty assembler (new_label then write_label). -/
def labelAsmC3 : Except String IR.Assembler := do
  let (t, a) ← IR.new_label IR.Assembler.new ("loop_label")
  IR.write_label a t

/-- C3: write_label pushes the live-range entry insns.len() measured after
the instruction is pushed, so for the assembler consisting of a single
written label the live-range entry equals the length of the instruction
list, violating the claimed invariant live_ranges[i] < number of
instructions (and the documented meaning of live_ranges, the index of the
last instruction using this output, since no instruction uses a label). -/
theorem C3_write_label_live_range_out_of_range :
    ∃ a, labelAsmC3 = Except.ok a ∧
      a.insns.length = 1 ∧ a.live_ranges.get? 0 = some 1 := by
  refine ⟨⟨[{ op := IR.Op.Label, text := none, opnds := [], out := Opnd.None,
              target := some (IR.Target.Label 0), pos_marker := none }], [1], ["loop_label"]⟩,
          rfl, rfl, rfl⟩

/-- Instruction with two sized register operands of widths 0 and 64. -/
def insnC4 : IR.Insn :=
  { op := IR.Op.Add, text := none,
    opnds := [Opnd.Reg { reg_no := 0, num_bits := 0 }, Opnd.Reg { reg_no := 0, num_bits := 64 }],
    out := Opnd.None, target := none, pos_marker := none }

/-- C4 counterexample: the two sized operands of insnC4 disagree on
num_bits (0 versus 64), yet push_insn succeeds, because a width of 0 is the
sentinel of the width-agreement loop for not-seen-yet: the first operand is
absorbed without being recorded and the instruction is pushed with output
width 64. The claim requires a program error here. -/
theorem C4_zero_width_not_rejected :
    IR.sizedWidths insnC4.opnds = [0, 64] ∧
    IR.push_insn IR.Assembler.new insnC4 =
      Except.ok (Opnd.InsnOut 0 64,
        ⟨[{ insnC4 with out := Opnd.InsnOut 0 64 }], [0], []⟩) := by
  exact ⟨rfl, rfl⟩

/-- Special-constant VALUE whose signed value fits 32 bits. -/
def vC5 : VALUE := { bits := 7, special_const := true, heap_object := false }

/-- Single-instruction assembler loading vC5. -/
def asmC5 : X86.Assembler :=
  ⟨[X86.Insn.Load (Opnd.Value vC5) (Opnd.InsnOut 0 64)], [0], []⟩

/-- C5 counterexample: the splitter leaves the Value operand of a Load
instruction in place. vC5 is a special constant whose signed value fits 32
bits, yet after x86_split the operand is still Value vC5 and not the
UImm the claim requires for every instruction, because the operand-mapping
phase exempts Load and LoadInto instructions (their Value operands are only
index-mapped, as the canonical form the emitter scans for GC references). -/
theorem C5_load_value_not_rewritten :
    X86.x86_split asmC5 = Except.ok asmC5 ∧
    vC5.special_const_p = true ∧ imm_num_bits vC5.as_i64 ≤ 32 ∧
    ∀ u : Nat, Opnd.Value vC5 ≠ Opnd.UImm u := by
  refine ⟨rfl, rfl, by decide, ?_⟩
  intro u h
  cases h

/-- C5 amended: for an operand of a non-load instruction (is_load = false in
the operand-mapping phase of x86_split) that is a Value v, the phase
rewrites it to UImm(v.as_u64()) with no Load inserted when v is a special
constant whose signed value fits 32 bits, and otherwise replaces it with
the output of a Load of the value appended to the new assembler. -/
theorem C5_value_operand_promotion (indices : List Nat) (asm : X86.Assembler) (v : VALUE) :
    X86.splitMapOpnd indices false asm (Opnd.Value v) =
      (if v.special_const_p = true ∧ imm_num_bits v.as_i64 ≤ 32 then
        Except.ok (Opnd.UImm v.as_u64, asm)
      else
        Except.ok (Opnd.InsnOut asm.insns.length 64,
          { asm with
            insns := asm.insns ++
              [X86.Insn.Load (Opnd.Value v) (Opnd.InsnOut asm.insns.length 64)],
            live_ranges := asm.live_ranges ++ [asm.insns.length] })) := by
  by_cases hs : v.special_const_p = true
  · by_cases hi : imm_num_bits v.as_i64 ≤ 32
    · rw [if_pos ⟨hs, hi⟩]
      simp only [X86.splitMapOpnd, hs, Nat.not_lt.mpr hi]
      rfl
    · rw [if_neg (by simp [hi])]
      simp only [X86.splitMapOpnd, hs, Nat.not_le.mp hi]
      rfl
  · rw [if_neg (by simp [hs])]
    simp only [X86.splitMapOpnd, hs]
    rfl

end Claims

/-- C10: taking or releasing a register whose reg_no does not occur in the
allocatable register list leaves the pool bitmap untouched: take_reg returns
the register with the pool unchanged and cannot raise the already-allocated
error, and dealloc_reg is the identity on the pool; consequently the
already-allocated check can only fire for a register whose reg_no occurs in
the list. -/
theorem C10_take_dealloc_outside_pool (pool : Nat) (regs : List Reg) (reg : Reg)
    (h : ∀ r ∈ regs, r.reg_no ≠ reg.reg_no) :
    IR.take_reg pool regs reg = Except.ok (reg, pool) ∧
    IR.dealloc_reg pool regs reg = pool ∧
    ∀ (reg2 : Reg) (e : String), IR.take_reg pool regs reg2 = Except.error e →
      ∃ r ∈ regs, r.reg_no = reg2.reg_no := by
  have hnone : regs.findIdx? (fun elem => elem.reg_no = reg.reg_no) = none := by
    rw [List.findIdx?_eq_none_iff]
    intro r hr
    simp [h r hr]
  refine ⟨?_, ?_, ?_⟩
  · rw [IR.take_reg, hnone]
  · rw [IR.dealloc_reg, hnone]
  · intro reg2 e herr
    rw [IR.take_reg] at herr
    cases hfind : regs.findIdx? (fun elem => elem.reg_no = reg2.reg_no) with
    | none => rw [hfind] at herr; cases herr
    | some i =>
        rw [List.findIdx?_eq_some_iff_getElem] at hfind
        obtain ⟨hlt, hp, _⟩ := hfind
        refine ⟨regs[i], List.getElem_mem hlt, by simpa using hp⟩

/-- C10 witness: a register with reg_no 5 is outside the pool list
consisting of RAX only, so take_reg returns it with the pool (here 3)
unchanged and dealloc_reg leaves the pool unchanged. -/
theorem C10_take_dealloc_outside_pool_witness :
    IR.take_reg 3 [RAX_REG] ⟨5, 64⟩ = Except.ok (⟨5, 64⟩, 3) ∧
    IR.dealloc_reg 3 [RAX_REG] ⟨5, 64⟩ = 3 ∧
    ∀ (reg2 : Reg) (e : String), IR.take_reg 3 [RAX_REG] reg2 = Except.error e →
      ∃ r ∈ [RAX_REG], r.reg_no = reg2.reg_no :=
  C10_take_dealloc_outside_pool 3 [RAX_REG] ⟨5, 64⟩ (by decide)

/-- The five binary ALU opcodes of the x86 splitter arm. -/
inductive ALUKind where
  | add | sub | and | or | xor
deriving DecidableEq, Repr

/-- Build the newer-draft binary ALU instruction of a given kind. -/
def mkALU : ALUKind → Opnd → Opnd → Opnd → X86.Insn
  | ALUKind.add => X86.Insn.Add
  | ALUKind.sub => X86.Insn.Sub
  | ALUKind.and => X86.Insn.And
  | ALUKind.or => X86.Insn.Or
  | ALUKind.xor => X86.Insn.Xor

/-- Common width of two instruction outputs of equal width. -/
theorem mnb_pair (i j nb : Nat) :
    X86.match_num_bits [Opnd.InsnOut i nb, Opnd.InsnOut j nb] = Except.ok nb := by
  simp [X86.match_num_bits, X86.matchNumBitsGo, X86.opndNumBits]

/-- ALU arm of the splitter on two memory operands of equal width: both are
loaded and the instruction is rebuilt on the two load outputs. -/
theorem splitALUArm_mem_mem (con : Opnd → Opnd → Opnd → X86.Insn) (nb b1 b2 : Nat)
    (d1 d2 : Int)
    (hop : X86.Insn.opnds (con (Opnd.InsnOut 0 nb) (Opnd.InsnOut 1 nb) (Opnd.InsnOut 2 nb)) =
      [Opnd.InsnOut 0 nb, Opnd.InsnOut 1 nb]) :
    X86.splitALUArm con [0] 0 ⟨[], [], []⟩
        (Opnd.Mem ⟨MemBase.Reg b1, d1, nb⟩) (Opnd.Mem ⟨MemBase.Reg b2, d2, nb⟩)
        (Opnd.Mem ⟨MemBase.Reg b1, d1, nb⟩) (Opnd.Mem ⟨MemBase.Reg b2, d2, nb⟩) =
      Except.ok ⟨[X86.Insn.Load (Opnd.Mem ⟨MemBase.Reg b1, d1, nb⟩) (Opnd.InsnOut 0 nb),
                  X86.Insn.Load (Opnd.Mem ⟨MemBase.Reg b2, d2, nb⟩) (Opnd.InsnOut 1 nb),
                  con (Opnd.InsnOut 0 nb) (Opnd.InsnOut 1 nb) (Opnd.InsnOut 2 nb)],
                 [2, 2, 2], []⟩ := by
  have step : X86.splitALUArm con [0] 0 ⟨[], [], []⟩
      (Opnd.Mem ⟨MemBase.Reg b1, d1, nb⟩) (Opnd.Mem ⟨MemBase.Reg b2, d2, nb⟩)
      (Opnd.Mem ⟨MemBase.Reg b1, d1, nb⟩) (Opnd.Mem ⟨MemBase.Reg b2, d2, nb⟩) =
      Except.bind (X86.match_num_bits [Opnd.InsnOut 0 nb, Opnd.InsnOut 1 nb])
        (fun w => X86.push_insn
          ⟨[X86.Insn.Load (Opnd.Mem ⟨MemBase.Reg b1, d1, nb⟩) (Opnd.InsnOut 0 nb),
            X86.Insn.Load (Opnd.Mem ⟨MemBase.Reg b2, d2, nb⟩) (Opnd.InsnOut 1 nb)], [0, 1], []⟩
          (con (Opnd.InsnOut 0 nb) (Opnd.InsnOut 1 nb) (Opnd.InsnOut 2 w))) := rfl
  have hpush : X86.push_insn
      ⟨[X86.Insn.Load (Opnd.Mem ⟨MemBase.Reg b1, d1, nb⟩) (Opnd.InsnOut 0 nb),
        X86.Insn.Load (Opnd.Mem ⟨MemBase.Reg b2, d2, nb⟩) (Opnd.InsnOut 1 nb)], [0, 1], []⟩
      (con (Opnd.InsnOut 0 nb) (Opnd.InsnOut 1 nb) (Opnd.InsnOut 2 nb)) =
      Except.ok ⟨[X86.Insn.Load (Opnd.Mem ⟨MemBase.Reg b1, d1, nb⟩) (Opnd.InsnOut 0 nb),
                  X86.Insn.Load (Opnd.Mem ⟨MemBase.Reg b2, d2, nb⟩) (Opnd.InsnOut 1 nb),
                  con (Opnd.InsnOut 0 nb) (Opnd.InsnOut 1 nb) (Opnd.InsnOut 2 nb)],
                 [2, 2, 2], []⟩ := by
    unfold X86.push_insn
    rw [hop]
    rfl
  rw [step, mnb_pair]
  exact hpush
/-- Common width of an instruction output and a register of the same width. -/
theorem mnb_insnout_reg (i nb r : Nat) :
    X86.match_num_bits [Opnd.InsnOut i nb, Opnd.Reg ⟨r, nb⟩] = Except.ok nb := by
  simp [X86.match_num_bits, X86.matchNumBitsGo, X86.opndNumBits]

/-- ALU arm of the splitter on a register left operand and a register right
operand of the same width: only the left is loaded, to avoid clobbering it. -/
theorem splitALUArm_reg_any (con : Opnd → Opnd → Opnd → X86.Insn) (nb r1 r2 : Nat)
    (hop : X86.Insn.opnds (con (Opnd.InsnOut 0 nb) (Opnd.Reg ⟨r2, nb⟩) (Opnd.InsnOut 1 nb)) =
      [Opnd.InsnOut 0 nb, Opnd.Reg ⟨r2, nb⟩]) :
    X86.splitALUArm con [0] 0 ⟨[], [], []⟩
        (Opnd.Reg ⟨r1, nb⟩) (Opnd.Reg ⟨r2, nb⟩) (Opnd.Reg ⟨r1, nb⟩) (Opnd.Reg ⟨r2, nb⟩) =
      Except.ok ⟨[X86.Insn.Load (Opnd.Reg ⟨r1, nb⟩) (Opnd.InsnOut 0 nb),
                  con (Opnd.InsnOut 0 nb) (Opnd.Reg ⟨r2, nb⟩) (Opnd.InsnOut 1 nb)],
                 [1, 1], []⟩ := by
  have step : X86.splitALUArm con [0] 0 ⟨[], [], []⟩
      (Opnd.Reg ⟨r1, nb⟩) (Opnd.Reg ⟨r2, nb⟩) (Opnd.Reg ⟨r1, nb⟩) (Opnd.Reg ⟨r2, nb⟩) =
      Except.bind (X86.match_num_bits [Opnd.InsnOut 0 nb, Opnd.Reg ⟨r2, nb⟩])
        (fun w => X86.push_insn
          ⟨[X86.Insn.Load (Opnd.Reg ⟨r1, nb⟩) (Opnd.InsnOut 0 nb)], [0], []⟩
          (con (Opnd.InsnOut 0 nb) (Opnd.Reg ⟨r2, nb⟩) (Opnd.InsnOut 1 w))) := rfl
  have hpush : X86.push_insn
      ⟨[X86.Insn.Load (Opnd.Reg ⟨r1, nb⟩) (Opnd.InsnOut 0 nb)], [0], []⟩
      (con (Opnd.InsnOut 0 nb) (Opnd.Reg ⟨r2, nb⟩) (Opnd.InsnOut 1 nb)) =
      Except.ok ⟨[X86.Insn.Load (Opnd.Reg ⟨r1, nb⟩) (Opnd.InsnOut 0 nb),
                  con (Opnd.InsnOut 0 nb) (Opnd.Reg ⟨r2, nb⟩) (Opnd.InsnOut 1 nb)],
                 [1, 1], []⟩ := by
    unfold X86.push_insn
    rw [hop]
    rfl
  rw [step, mnb_insnout_reg]
  exact hpush

/-- C2 counterexample: for add with both operands in memory the splitter
does not carry the right operand unchanged as a memory operand: it inserts
Loads of BOTH operands, and the rewritten instruction reads the two load
outputs. Evaluated at a concrete add of two 64-bit memory operands, the
result contains two Load instructions and the right operand of the add is
an instruction output, not a memory operand. -/
theorem C2_both_memory_loads_right_too :
    X86.x86_split ⟨[X86.Insn.Add (Opnd.Mem ⟨MemBase.Reg 3, 0, 64⟩)
                                 (Opnd.Mem ⟨MemBase.Reg 5, 8, 64⟩) (Opnd.InsnOut 0 64)],
                   [0], []⟩ =
      Except.ok ⟨[X86.Insn.Load (Opnd.Mem ⟨MemBase.Reg 3, 0, 64⟩) (Opnd.InsnOut 0 64),
                  X86.Insn.Load (Opnd.Mem ⟨MemBase.Reg 5, 8, 64⟩) (Opnd.InsnOut 1 64),
                  X86.Insn.Add (Opnd.InsnOut 0 64) (Opnd.InsnOut 1 64) (Opnd.InsnOut 2 64)],
                 [2, 2, 2], []⟩ ∧
    ∀ m : Mem, Opnd.InsnOut 1 64 ≠ Opnd.Mem m := by
  refine ⟨rfl, ?_⟩
  intro m h
  cases h

/-- C2 amended: for every binary ALU instruction (Add, Sub, And, Or, Xor)
processed by the x86 splitter, (1) when both input operands are memory
operands the splitter inserts Loads of BOTH operands, the left being
replaced by the output of the first inserted Load and the right by the
output of the second (the right is not carried as a memory operand); in the
remaining listed cases exactly the left operand is replaced by the output
of one inserted Load: (2) when the left is memory and the right an
immediate, (3) when the left is an instruction output whose live range
extends past this instruction, and (4) when the left is a register (memory
or register with any other right operand). -/
theorem C2_alu_left_load_cases (k : ALUKind) (nb b1 b2 r1 r2 bs nbs u : Nat)
    (d1 d2 ds : Int) :
    (X86.x86_split ⟨[mkALU k (Opnd.Mem ⟨MemBase.Reg b1, d1, nb⟩)
                             (Opnd.Mem ⟨MemBase.Reg b2, d2, nb⟩) (Opnd.InsnOut 0 nb)],
                    [0], []⟩ =
      Except.ok ⟨[X86.Insn.Load (Opnd.Mem ⟨MemBase.Reg b1, d1, nb⟩) (Opnd.InsnOut 0 nb),
                  X86.Insn.Load (Opnd.Mem ⟨MemBase.Reg b2, d2, nb⟩) (Opnd.InsnOut 1 nb),
                  mkALU k (Opnd.InsnOut 0 nb) (Opnd.InsnOut 1 nb) (Opnd.InsnOut 2 nb)],
                 [2, 2, 2], []⟩) ∧
    (X86.x86_split ⟨[mkALU k (Opnd.Mem ⟨MemBase.Reg b1, d1, nb⟩) (Opnd.UImm u)
                             (Opnd.InsnOut 0 nb)],
                    [0], []⟩ =
      Except.ok ⟨[X86.Insn.Load (Opnd.Mem ⟨MemBase.Reg b1, d1, nb⟩) (Opnd.InsnOut 0 nb),
                  mkALU k (Opnd.InsnOut 0 nb) (Opnd.UImm u) (Opnd.InsnOut 1 nb)],
                 [1, 1], []⟩) ∧
    (X86.x86_split ⟨[X86.Insn.Load (Opnd.Mem ⟨MemBase.Reg b1, d1, nb⟩) (Opnd.InsnOut 0 nb),
                     mkALU k (Opnd.InsnOut 0 nb) (Opnd.UImm u) (Opnd.InsnOut 1 nb),
                     X86.Insn.Store (Opnd.Mem ⟨MemBase.Reg bs, ds, nbs⟩) (Opnd.InsnOut 0 nb)],
                    [2, 1, 2], []⟩ =
      Except.ok ⟨[X86.Insn.Load (Opnd.Mem ⟨MemBase.Reg b1, d1, nb⟩) (Opnd.InsnOut 0 nb),
                  X86.Insn.Load (Opnd.InsnOut 0 nb) (Opnd.InsnOut 1 nb),
                  mkALU k (Opnd.InsnOut 1 nb) (Opnd.UImm u) (Opnd.InsnOut 2 nb),
                  X86.Insn.Store (Opnd.Mem ⟨MemBase.Reg bs, ds, nbs⟩) (Opnd.InsnOut 0 nb)],
                 [3, 2, 2, 3], []⟩) ∧
    (X86.x86_split ⟨[mkALU k (Opnd.Reg ⟨r1, nb⟩) (Opnd.Reg ⟨r2, nb⟩) (Opnd.InsnOut 0 nb)],
                    [0], []⟩ =
      Except.ok ⟨[X86.Insn.Load (Opnd.Reg ⟨r1, nb⟩) (Opnd.InsnOut 0 nb),
                  mkALU k (Opnd.InsnOut 0 nb) (Opnd.Reg ⟨r2, nb⟩) (Opnd.InsnOut 1 nb)],
                 [1, 1], []⟩) := by
  refine ⟨?_, ?_, ?_, ?_⟩
  · cases k
    case add =>
      show Except.bind (X86.splitALUArm X86.Insn.Add [0] 0 ⟨[], [], []⟩
          (Opnd.Mem ⟨MemBase.Reg b1, d1, nb⟩) (Opnd.Mem ⟨MemBase.Reg b2, d2, nb⟩)
          (Opnd.Mem ⟨MemBase.Reg b1, d1, nb⟩) (Opnd.Mem ⟨MemBase.Reg b2, d2, nb⟩))
          (fun asm => Except.ok asm) = _
      rw [splitALUArm_mem_mem X86.Insn.Add nb b1 b2 d1 d2 rfl]
      rfl
    case sub =>
      show Except.bind (X86.splitALUArm X86.Insn.Sub [0] 0 ⟨[], [], []⟩
          (Opnd.Mem ⟨MemBase.Reg b1, d1, nb⟩) (Opnd.Mem ⟨MemBase.Reg b2, d2, nb⟩)
          (Opnd.Mem ⟨MemBase.Reg b1, d1, nb⟩) (Opnd.Mem ⟨MemBase.Reg b2, d2, nb⟩))
          (fun asm => Except.ok asm) = _
      rw [splitALUArm_mem_mem X86.Insn.Sub nb b1 b2 d1 d2 rfl]
      rfl
    case and =>
      show Except.bind (X86.splitALUArm X86.Insn.And [0] 0 ⟨[], [], []⟩
          (Opnd.Mem ⟨MemBase.Reg b1, d1, nb⟩) (Opnd.Mem ⟨MemBase.Reg b2, d2, nb⟩)
          (Opnd.Mem ⟨MemBase.Reg b1, d1, nb⟩) (Opnd.Mem ⟨MemBase.Reg b2, d2, nb⟩))
          (fun asm => Except.ok asm) = _
      rw [splitALUArm_mem_mem X86.Insn.And nb b1 b2 d1 d2 rfl]
      rfl
    case or =>
      show Except.bind (X86.splitALUArm X86.Insn.Or [0] 0 ⟨[], [], []⟩
          (Opnd.Mem ⟨MemBase.Reg b1, d1, nb⟩) (Opnd.Mem ⟨MemBase.Reg b2, d2, nb⟩)
          (Opnd.Mem ⟨MemBase.Reg b1, d1, nb⟩) (Opnd.Mem ⟨MemBase.Reg b2, d2, nb⟩))
          (fun asm => Except.ok asm) = _
      rw [splitALUArm_mem_mem X86.Insn.Or nb b1 b2 d1 d2 rfl]
      rfl
    case xor =>
      show Except.bind (X86.splitALUArm X86.Insn.Xor [0] 0 ⟨[], [], []⟩
          (Opnd.Mem ⟨MemBase.Reg b1, d1, nb⟩) (Opnd.Mem ⟨MemBase.Reg b2, d2, nb⟩)
          (Opnd.Mem ⟨MemBase.Reg b1, d1, nb⟩) (Opnd.Mem ⟨MemBase.Reg b2, d2, nb⟩))
          (fun asm => Except.ok asm) = _
      rw [splitALUArm_mem_mem X86.Insn.Xor nb b1 b2 d1 d2 rfl]
      rfl
  · cases k <;> rfl
  · cases k <;> rfl
  · cases k
    case add =>
      show Except.bind (X86.splitALUArm X86.Insn.Add [0] 0 ⟨[], [], []⟩
          (Opnd.Reg ⟨r1, nb⟩) (Opnd.Reg ⟨r2, nb⟩) (Opnd.Reg ⟨r1, nb⟩) (Opnd.Reg ⟨r2, nb⟩))
          (fun asm => Except.ok asm) = _
      rw [splitALUArm_reg_any X86.Insn.Add nb r1 r2 rfl]
      rfl
    case sub =>
      show Except.bind (X86.splitALUArm X86.Insn.Sub [0] 0 ⟨[], [], []⟩
          (Opnd.Reg ⟨r1, nb⟩) (Opnd.Reg ⟨r2, nb⟩) (Opnd.Reg ⟨r1, nb⟩) (Opnd.Reg ⟨r2, nb⟩))
          (fun asm => Except.ok asm) = _
      rw [splitALUArm_reg_any X86.Insn.Sub nb r1 r2 rfl]
      rfl
    case and =>
      show Except.bind (X86.splitALUArm X86.Insn.And [0] 0 ⟨[], [], []⟩
          (Opnd.Reg ⟨r1, nb⟩) (Opnd.Reg ⟨r2, nb⟩) (Opnd.Reg ⟨r1, nb⟩) (Opnd.Reg ⟨r2, nb⟩))
          (fun asm => Except.ok asm) = _
      rw [splitALUArm_reg_any X86.Insn.And nb r1 r2 rfl]
      rfl
    case or =>
      show Except.bind (X86.splitALUArm X86.Insn.Or [0] 0 ⟨[], [], []⟩
          (Opnd.Reg ⟨r1, nb⟩) (Opnd.Reg ⟨r2, nb⟩) (Opnd.Reg ⟨r1, nb⟩) (Opnd.Reg ⟨r2, nb⟩))
          (fun asm => Except.ok asm) = _
      rw [splitALUArm_reg_any X86.Insn.Or nb r1 r2 rfl]
      rfl
    case xor =>
      show Except.bind (X86.splitALUArm X86.Insn.Xor [0] 0 ⟨[], [], []⟩
          (Opnd.Reg ⟨r1, nb⟩) (Opnd.Reg ⟨r2, nb⟩) (Opnd.Reg ⟨r1, nb⟩) (Opnd.Reg ⟨r2, nb⟩))
          (fun asm => Except.ok asm) = _
      rw [splitALUArm_reg_any X86.Insn.Xor nb r1 r2 rfl]
      rfl

/-- The LoadInto sequence the CCall arm emits: argument i is loaded into
C argument register idx + i, in order. -/
def loadIntoList (idx : Nat) : List Opnd → List X86.Insn
  | [] => []
  | a :: rest => X86.Insn.LoadInto (C_ARG_OPNDS.getD idx Opnd.None) a :: loadIntoList (idx + 1) rest

/-- Length of the emitted LoadInto sequence. -/
theorem loadIntoList_length (idx : Nat) (os : List Opnd) :
    (loadIntoList idx os).length = os.length := by
  induction os generalizing idx with
  | nil => rfl
  | cons a rest ih => simp [loadIntoList, ih]

/-- A C argument register slot never references an instruction output. -/
theorem cArg_refIdx_none (idx : Nat) : (C_ARG_OPNDS.getD idx Opnd.None).refIdx = none := by
  rcases idx with _ | _ | _ | _ | _ | _ | n <;> rfl

/-- The live-range update of the newer-draft push_insn is the identity when
no operand references an instruction output. -/
theorem updateRangesX_none (n : Nat) (lr : List Nat) (os : List Opnd)
    (h : ∀ o ∈ os, o.refIdx = none) :
    X86.push_insn.updateRangesX n lr os = Except.ok lr := by
  induction os with
  | nil => rfl
  | cons o rest ih =>
      unfold X86.push_insn.updateRangesX
      rw [h o (List.mem_cons_self o rest)]
      exact ih (fun x hx => h x (List.mem_cons_of_mem o hx))

/-- The CCall argument loop on operands that do not reference instruction
outputs appends exactly the LoadInto sequence, with one fresh live-range
entry per emitted instruction. -/
theorem splitCCallArgs_spec (args : List Opnd) (h : ∀ a ∈ args, a.refIdx = none) :
    ∀ (idx : Nat) (asm : X86.Assembler),
    X86.splitCCallArgs asm idx args =
      Except.ok ⟨asm.insns ++ loadIntoList idx args,
                 asm.live_ranges ++ List.range' asm.insns.length args.length,
                 asm.label_names⟩ := by
  induction args with
  | nil =>
      intro idx asm
      simp [X86.splitCCallArgs, loadIntoList]
  | cons a rest ih =>
      intro idx asm
      have ha : a.refIdx = none := h a (List.mem_cons_self a rest)
      have hrest : ∀ x ∈ rest, x.refIdx = none := fun x hx => h x (List.mem_cons_of_mem a hx)
      have hpush : X86.load_into asm (C_ARG_OPNDS.getD idx Opnd.None) a =
          Except.ok ⟨asm.insns ++ [X86.Insn.LoadInto (C_ARG_OPNDS.getD idx Opnd.None) a],
                     asm.live_ranges ++ [asm.insns.length], asm.label_names⟩ := by
        have hops : ∀ o ∈ [C_ARG_OPNDS.getD idx Opnd.None, a], o.refIdx = none := by
          intro o ho
          fin_cases ho
          · exact cArg_refIdx_none idx
          · exact ha
        unfold X86.load_into X86.push_insn
        show Except.bind (X86.push_insn.updateRangesX asm.insns.length asm.live_ranges
          [C_ARG_OPNDS.getD idx Opnd.None, a]) _ = _
        rw [updateRangesX_none _ _ _ hops]
        rfl
      show Except.bind (X86.load_into asm (C_ARG_OPNDS.getD idx Opnd.None) a) _ = _
      rw [hpush]
      show X86.splitCCallArgs _ (idx + 1) rest = _
      rw [ih hrest (idx + 1)]
      simp [loadIntoList, List.range'_succ, List.length_append]

/-- With at most six arguments starting at slot idx, the emitted LoadInto
sequence pairs the C argument registers with the arguments positionally. -/
theorem loadIntoList_eq_zipWith (args : List Opnd) :
    ∀ idx : Nat, idx + args.length ≤ 6 →
    loadIntoList idx args = List.zipWith X86.Insn.LoadInto (C_ARG_OPNDS.drop idx) args := by
  induction args with
  | nil => intro idx h; simp [loadIntoList]
  | cons a rest ih =>
      intro idx h
      rw [List.length_cons] at h
      have hrec := ih (idx + 1) (by omega)
      rcases idx with _ | _ | _ | _ | _ | _ | n
      · simpa [loadIntoList, C_ARG_OPNDS] using hrec
      · simpa [loadIntoList, C_ARG_OPNDS] using hrec
      · simpa [loadIntoList, C_ARG_OPNDS] using hrec
      · simpa [loadIntoList, C_ARG_OPNDS] using hrec
      · simpa [loadIntoList, C_ARG_OPNDS] using hrec
      · simpa [loadIntoList, C_ARG_OPNDS] using hrec
      · omega

/-- The operand-mapping phase is the identity on a list of register
operands and inserts nothing. -/
theorem splitMapOpnds_regs (indices : List Nat) (asm : X86.Assembler) (rs : List Nat) :
    X86.splitMapOpnds indices false asm (rs.map (fun r => Opnd.Reg ⟨r, 64⟩)) =
      Except.ok (rs.map (fun r => Opnd.Reg ⟨r, 64⟩), asm) := by
  induction rs generalizing asm with
  | nil => rfl
  | cons r rest ih =>
      have h1 : X86.splitMapOpnd indices false asm (Opnd.Reg ⟨r, 64⟩) =
          Except.ok (Opnd.Reg ⟨r, 64⟩, asm) := rfl
      simp only [List.map_cons]
      unfold X86.splitMapOpnds
      rw [h1]
      show Except.bind (X86.splitMapOpnds indices false asm
        (rest.map (fun r => Opnd.Reg ⟨r, 64⟩))) _ = _
      rw [ih asm]
      rfl

/-- Reduction of an Except bind over an ok value. -/
theorem bindOk {α β : Type} (a : α) (f : α → Except String β) :
    Except.bind (Except.ok a) f = f a := rfl

/-- C6: for a CCall on k register arguments, if k exceeds the six ABI
argument registers the x86 splitter raises a program error, and otherwise
it emits one LoadInto of argument i into C_ARG_OPNDS[i] for each i < k, in
order, followed by a single CCall carrying no argument operands. -/
theorem C6_ccall_argument_split (args : List Nat) (fptr : Nat) :
    (args.length ≤ 6 →
      X86.x86_split ⟨[X86.Insn.CCall (args.map (fun r => Opnd.Reg ⟨r, 64⟩)) fptr
                        (Opnd.InsnOut 0 64)], [0], []⟩ =
        Except.ok ⟨List.zipWith X86.Insn.LoadInto C_ARG_OPNDS
                     (args.map (fun r => Opnd.Reg ⟨r, 64⟩)) ++
                   [X86.Insn.CCall [] fptr (Opnd.InsnOut args.length 64)],
                   List.range (args.length + 1), []⟩) ∧
    (6 < args.length →
      X86.x86_split ⟨[X86.Insn.CCall (args.map (fun r => Opnd.Reg ⟨r, 64⟩)) fptr
                        (Opnd.InsnOut 0 64)], [0], []⟩ =
        Except.error ("assertion failed: opnds.len() <= C_ARG_OPNDS.len()")) := by
  have hrefs : ∀ a ∈ args.map (fun r => Opnd.Reg ⟨r, 64⟩), a.refIdx = none := by
    intro a ha
    rw [List.mem_map] at ha
    obtain ⟨r, _, rfl⟩ := ha
    rfl
  have hinsn : X86.splitInsn [0] 0 [] ⟨[], [], []⟩
      (X86.Insn.CCall (args.map (fun r => Opnd.Reg ⟨r, 64⟩)) fptr (Opnd.InsnOut 0 64)) =
      X86.splitCCallArm ⟨[], [], []⟩ (args.map (fun r => Opnd.Reg ⟨r, 64⟩)) fptr := by
    unfold X86.splitInsn
    simp only [X86.Insn.opnds]
    rw [splitMapOpnds_regs]
    rfl
  have hargs : X86.splitCCallArgs ⟨[], [], []⟩ 0 (args.map (fun r => Opnd.Reg ⟨r, 64⟩)) =
      Except.ok ⟨loadIntoList 0 (args.map (fun r => Opnd.Reg ⟨r, 64⟩)),
                 List.range' 0 (args.map (fun r => Opnd.Reg ⟨r, 64⟩)).length, []⟩ := by
    rw [splitCCallArgs_spec (args.map (fun r => Opnd.Reg ⟨r, 64⟩)) hrefs 0 ⟨[], [], []⟩]
    rfl
  have hccall : X86.ccall
      ⟨loadIntoList 0 (args.map (fun r => Opnd.Reg ⟨r, 64⟩)),
       List.range' 0 (args.map (fun r => Opnd.Reg ⟨r, 64⟩)).length, []⟩ fptr [] =
      Except.ok (Opnd.InsnOut (loadIntoList 0 (args.map (fun r => Opnd.Reg ⟨r, 64⟩))).length 64,
        ⟨loadIntoList 0 (args.map (fun r => Opnd.Reg ⟨r, 64⟩)) ++
           [X86.Insn.CCall [] fptr
             (Opnd.InsnOut (loadIntoList 0 (args.map (fun r => Opnd.Reg ⟨r, 64⟩))).length 64)],
         List.range' 0 (args.map (fun r => Opnd.Reg ⟨r, 64⟩)).length ++
           [(loadIntoList 0 (args.map (fun r => Opnd.Reg ⟨r, 64⟩))).length], []⟩) := rfl
  constructor
  · intro h
    have hlen : (loadIntoList 0 (args.map (fun r => Opnd.Reg ⟨r, 64⟩))).length = args.length := by
      rw [loadIntoList_length, List.length_map]
    have hzip : loadIntoList 0 (args.map (fun r => Opnd.Reg ⟨r, 64⟩)) =
        List.zipWith X86.Insn.LoadInto C_ARG_OPNDS (args.map (fun r => Opnd.Reg ⟨r, 64⟩)) := by
      have hh := loadIntoList_eq_zipWith (args.map (fun r => Opnd.Reg ⟨r, 64⟩)) 0
        (by simpa using h)
      simpa using hh
    have hrange : List.range' 0 (args.map (fun r => Opnd.Reg ⟨r, 64⟩)).length ++ [args.length] =
        List.range (args.length + 1) := by
      rw [List.length_map, List.range_succ, List.range_eq_range']
    have harm : X86.splitCCallArm ⟨[], [], []⟩ (args.map (fun r => Opnd.Reg ⟨r, 64⟩)) fptr =
        Except.ok ⟨List.zipWith X86.Insn.LoadInto C_ARG_OPNDS
                     (args.map (fun r => Opnd.Reg ⟨r, 64⟩)) ++
                   [X86.Insn.CCall [] fptr (Opnd.InsnOut args.length 64)],
                   List.range (args.length + 1), []⟩ := by
      unfold X86.splitCCallArm
      rw [if_pos (by simpa [C_ARG_OPNDS] using h)]
      rw [hargs]
      show Except.bind (X86.ccall
        ⟨loadIntoList 0 (args.map (fun r => Opnd.Reg ⟨r, 64⟩)),
         List.range' 0 (args.map (fun r => Opnd.Reg ⟨r, 64⟩)).length, []⟩ fptr [])
        (fun p => match p with | (_, asm2) => Except.ok asm2) = _
      rw [hccall]
      show Except.ok _ = _
      rw [hlen, hzip, hrange]
    show Except.bind (X86.splitInsn [0] 0 [] ⟨[], [], []⟩
        (X86.Insn.CCall (args.map (fun r => Opnd.Reg ⟨r, 64⟩)) fptr (Opnd.InsnOut 0 64)))
        (fun asm => Except.ok asm) = _
    rw [hinsn, harm]
    rfl
  · intro h
    show Except.bind (X86.splitInsn [0] 0 [] ⟨[], [], []⟩
        (X86.Insn.CCall (args.map (fun r => Opnd.Reg ⟨r, 64⟩)) fptr (Opnd.InsnOut 0 64)))
        (fun asm => Except.ok asm) = _
    rw [hinsn]
    unfold X86.splitCCallArm
    rw [if_neg (by simp only [List.length_map, C_ARG_OPNDS, List.length_cons,
      List.length_nil, Nat.not_le]; omega)]
    rfl

/-- C6 witness: a CCall with exactly six register arguments splits into six
LoadInto instructions and an argument-free CCall, and a CCall with seven
arguments is a program error. -/
theorem C6_ccall_argument_split_witness :
    (X86.x86_split ⟨[X86.Insn.CCall ([10, 11, 12, 13, 14, 15].map (fun r => Opnd.Reg ⟨r, 64⟩))
                      99 (Opnd.InsnOut 0 64)], [0], []⟩ =
      Except.ok ⟨List.zipWith X86.Insn.LoadInto C_ARG_OPNDS
                   ([10, 11, 12, 13, 14, 15].map (fun r => Opnd.Reg ⟨r, 64⟩)) ++
                 [X86.Insn.CCall [] 99 (Opnd.InsnOut ([10, 11, 12, 13, 14, 15] : List Nat).length 64)],
                 List.range (([10, 11, 12, 13, 14, 15] : List Nat).length + 1), []⟩) ∧
    (X86.x86_split ⟨[X86.Insn.CCall ([10, 11, 12, 13, 14, 15, 16].map (fun r => Opnd.Reg ⟨r, 64⟩))
                      99 (Opnd.InsnOut 0 64)], [0], []⟩ =
      Except.error ("assertion failed: opnds.len() <= C_ARG_OPNDS.len()")) :=
  ⟨(C6_ccall_argument_split [10, 11, 12, 13, 14, 15] 99).1 (by decide),
   (C6_ccall_argument_split [10, 11, 12, 13, 14, 15, 16] 99).2 (by decide)⟩

/-- The width-agreement fold started at a nonzero width succeeds on a list
of widths all equal to it. -/
theorem widthFold_all_eq (w : Nat) (hw : w ≠ 0) :
    ∀ ws : List Nat, (∀ x ∈ ws, x = w) → IR.widthFold w ws = Except.ok w := by
  intro ws
  induction ws with
  | nil => intro h; rfl
  | cons x rest ih =>
      intro h
      have hx : x = w := h x (List.mem_cons_self x rest)
      subst hx
      unfold IR.widthFold
      rw [if_neg hw, if_neg (by simp)]
      exact ih (fun y hy => h y (List.mem_cons_of_mem x hy))

/-- The width-agreement fold started at a nonzero width fails on a list
containing a different width. -/
theorem widthFold_conflict (w : Nat) (hw : w ≠ 0) :
    ∀ ws : List Nat, (∃ x ∈ ws, x ≠ w) →
    IR.widthFold w ws = Except.error ("operands of incompatible sizes") := by
  intro ws
  induction ws with
  | nil => rintro ⟨x, hx, _⟩; cases hx
  | cons x rest ih =>
      rintro ⟨y, hy, hne⟩
      rcases List.mem_cons.mp hy with rfl | hyr
      · unfold IR.widthFold
        rw [if_neg hw, if_pos (fun he => hne he.symm)]
      · by_cases hxw : x = w
        · subst hxw
          unfold IR.widthFold
          rw [if_neg hw, if_neg (by simp)]
          exact ih ⟨y, hyr, hne⟩
        · unfold IR.widthFold
          rw [if_neg hw, if_pos (fun he => hxw he.symm)]

/-- The live-range update loop of push_insn succeeds and preserves the
length of the live-range list when every referenced index is in range. -/
theorem updateRanges_ok (n : Nat) :
    ∀ (ops : List Opnd) (lr : List Nat),
    (∀ o ∈ ops, ∀ i, o.refIdx = some i → i < lr.length) →
    ∃ lr2, IR.updateRanges n lr ops = Except.ok lr2 := by
  intro ops
  induction ops with
  | nil => intro lr h; exact ⟨lr, rfl⟩
  | cons o rest ih =>
      intro lr h
      unfold IR.updateRanges
      cases href : o.refIdx with
      | none =>
          exact ih lr (fun x hx i hi => h x (List.mem_cons_of_mem o hx) i hi)
      | some idx =>
          have hlt : idx < lr.length := h o (List.mem_cons_self o rest) idx href
          simp only [setIdx]
          rw [if_pos hlt]
          have hlen : (lr.set idx n).length = lr.length := List.length_set lr idx n
          obtain ⟨lr2, h2⟩ := ih (lr.set idx n)
            (fun x hx i hi => by rw [hlen]; exact h x (List.mem_cons_of_mem o hx) i hi)
          exact ⟨lr2, h2⟩

/-- Unfolding of push_insn as an explicit chain of Except binds. -/
theorem push_insn_eq (asm : IR.Assembler) (insn : IR.Insn) :
    IR.push_insn asm insn =
      Except.bind (IR.updateRanges asm.insns.length asm.live_ranges insn.opnds)
        (fun lr => Except.bind (IR.widthFold 0 (IR.sizedWidths insn.opnds))
          (fun w => Except.ok
            (Opnd.InsnOut asm.insns.length (if w = 0 then 64 else w),
             { asm with
               insns := asm.insns ++
                 [{ insn with out := Opnd.InsnOut asm.insns.length (if w = 0 then 64 else w) }],
               live_ranges := lr ++ [asm.insns.length] }))) := rfl

/-- C4 amended: for an instruction whose referenced instruction outputs are
in range (as push itself guarantees for outputs it handed out) and whose
sized operands all carry a nonzero width, push_insn raises a program error
when two sized operands disagree on num_bits, and otherwise returns
InsnOut(idx, w) where idx is the index at which the instruction is appended
and w is the common width of the sized operands, or 64 when no operand is
sized. -/
theorem C4_push_insn_width_agreement (asm : IR.Assembler) (insn : IR.Insn)
    (hidx : ∀ o ∈ insn.opnds, ∀ i, o.refIdx = some i → i < asm.live_ranges.length)
    (hnz : ∀ w ∈ IR.sizedWidths insn.opnds, w ≠ 0) :
    ((∃ a ∈ IR.sizedWidths insn.opnds, ∃ b ∈ IR.sizedWidths insn.opnds, a ≠ b) →
        IR.push_insn asm insn = Except.error ("operands of incompatible sizes")) ∧
    ((∀ a ∈ IR.sizedWidths insn.opnds, ∀ b ∈ IR.sizedWidths insn.opnds, a = b) →
        ∃ asm2, IR.push_insn asm insn =
          Except.ok (Opnd.InsnOut asm.insns.length ((IR.sizedWidths insn.opnds).headD 64),
            asm2)) := by
  obtain ⟨lr2, hlr⟩ := updateRanges_ok asm.insns.length insn.opnds asm.live_ranges hidx
  constructor
  · rintro ⟨a, ha, b, hb, hab⟩
    cases hws : IR.sizedWidths insn.opnds with
    | nil => rw [hws] at ha; cases ha
    | cons x rest =>
        rw [hws] at ha hb
        have hx0 : x ≠ 0 := by
          have := hnz x
          rw [hws] at this
          exact this (List.mem_cons_self x rest)
        have hconf : ∃ y ∈ rest, y ≠ x := by
          rcases List.mem_cons.mp ha with rfl | har
          · rcases List.mem_cons.mp hb with rfl | hbr
            · exact absurd rfl hab
            · exact ⟨b, hbr, fun he => hab he.symm⟩
          · by_cases hax : a = x
            · subst hax
              rcases List.mem_cons.mp hb with rfl | hbr
              · exact absurd rfl hab
              · exact ⟨b, hbr, fun he => hab he.symm⟩
            · exact ⟨a, har, hax⟩
        have hfold : IR.widthFold 0 (IR.sizedWidths insn.opnds) =
            Except.error ("operands of incompatible sizes") := by
          rw [hws]
          unfold IR.widthFold
          rw [if_pos rfl]
          exact widthFold_conflict x hx0 rest hconf
        rw [push_insn_eq, hlr]
        simp only [bindOk]
        rw [hfold]
        rfl
  · intro huni
    cases hws : IR.sizedWidths insn.opnds with
    | nil =>
        have hfold : IR.widthFold 0 (IR.sizedWidths insn.opnds) = Except.ok 0 := by
          rw [hws]; rfl
        refine ⟨{ asm with
            insns := asm.insns ++ [{ insn with out := Opnd.InsnOut asm.insns.length 64 }],
            live_ranges := lr2 ++ [asm.insns.length] }, ?_⟩
        rw [push_insn_eq, hlr]
        simp only [bindOk]
        rw [hfold]
        rfl
    | cons x rest =>
        have hx0 : x ≠ 0 := by
          have := hnz x
          rw [hws] at this
          exact this (List.mem_cons_self x rest)
        have hall : ∀ y ∈ rest, y = x := by
          intro y hy
          have h1 := huni y
          have h2 := huni x
          rw [hws] at h1 h2
          exact h1 (List.mem_cons_of_mem x hy) x (List.mem_cons_self x rest)
        have hfold : IR.widthFold 0 (IR.sizedWidths insn.opnds) = Except.ok x := by
          rw [hws]
          unfold IR.widthFold
          rw [if_pos rfl]
          exact widthFold_all_eq x hx0 rest hall
        refine ⟨{ asm with
            insns := asm.insns ++ [{ insn with out := Opnd.InsnOut asm.insns.length x }],
            live_ranges := lr2 ++ [asm.insns.length] }, ?_⟩
        rw [push_insn_eq, hlr]
        simp only [bindOk]
        rw [hfold]
        simp only [bindOk]
        rw [if_neg hx0]
        rfl

/-- C4 witness: pushing an add of two 64-bit registers onto the empty
assembler returns InsnOut(0, 64), the sized operands 64 and 64 agreeing. -/
theorem C4_push_insn_width_agreement_witness :
    ∃ asm2, IR.push_insn IR.Assembler.new
        { op := IR.Op.Add, text := none,
          opnds := [Opnd.Reg ⟨0, 64⟩, Opnd.Reg ⟨1, 64⟩],
          out := Opnd.None, target := none, pos_marker := none } =
      Except.ok (Opnd.InsnOut 0 64, asm2) :=
  (C4_push_insn_width_agreement IR.Assembler.new
    { op := IR.Op.Add, text := none,
      opnds := [Opnd.Reg ⟨0, 64⟩, Opnd.Reg ⟨1, 64⟩],
      out := Opnd.None, target := none, pos_marker := none }
    (by intro o ho i hi; fin_cases ho <;> cases hi)
    (by decide)).2 (by decide)

/-- Unfolding of allocChooseOut as an explicit chain of Except binds. -/
theorem allocChooseOut_eq (regs : List Reg) (lr : List Nat) (acc : IR.Assembler)
    (index pool : Nat) (insn : IR.Insn) :
    IR.allocChooseOut regs lr acc index pool insn =
      Except.bind (getIdx lr index) (fun last_use =>
        if last_use = index then Except.ok (Opnd.None, pool)
        else if insn.op = IR.Op.CCall then
          Except.bind (IR.take_reg pool regs C_RET_REG)
            (fun p => Except.ok (Opnd.Reg p.1, p.2))
        else
          Except.bind (IR.allocReuse regs lr acc index pool insn.opnds) (fun q =>
            if q.1 = Opnd.None then
              if insn.op = IR.Op.LiveReg then
                Except.bind (getIdx insn.opnds 0) (fun first =>
                  Except.bind first.unwrap_reg (fun reg =>
                    Except.bind (IR.take_reg q.2 regs reg)
                      (fun p => Except.ok (Opnd.Reg p.1, p.2))))
              else
                Except.bind (IR.alloc_reg q.2 regs)
                  (fun p => Except.ok (Opnd.Reg p.1, p.2))
            else Except.ok (q.1, q.2))) := rfl

/-- Unfolding of allocRegsStep as an explicit chain of Except binds; the
final narrowing match carries the continuation into its arms, as the
do-notation join point does. -/
theorem allocRegsStep_eq (regs : List Reg) (lr : List Nat) (index pool : Nat)
    (acc : IR.Assembler) (insn : IR.Insn) :
    IR.allocRegsStep regs lr index pool acc insn =
      Except.bind (IR.allocReclaim regs lr acc index pool insn.opnds) (fun pool1 =>
        if insn.op = IR.Op.CCall ∧ pool1 ≠ 0 then
          Except.error ("register lives past C function call")
        else
          Except.bind (IR.allocChooseOut regs lr acc index pool1 insn) (fun x =>
            match x with
            | (out_reg, pool2) =>
              Except.bind (IR.allocRewrite acc insn.opnds) (fun reg_opnds =>
                Except.bind (IR.push_insn_parts acc insn.op reg_opnds insn.target insn.text
                    insn.pos_marker) (fun y =>
                  match y with
                  | (out_opnd, acc2) =>
                    match out_reg with
                    | Opnd.Reg reg =>
                        Except.bind out_opnd.rm_num_bits (fun num_out_bits =>
                          Except.bind (reg.sub_reg num_out_bits) (fun narrowed =>
                            Except.ok (pool2, IR.setLastOut acc2 (Opnd.Reg narrowed))))
                    | _ => Except.ok (pool2, IR.setLastOut acc2 out_reg))))) := rfl

/-- Reduction of an Except bind over an error. -/
theorem bindErr {α β : Type} (e : String) (f : α → Except String β) :
    Except.bind (Except.error e) f = Except.error e := rfl

/-- A successful push appends exactly the pushed instruction, with its out
field set to the returned operand. -/
theorem push_insn_ok_insns (asm : IR.Assembler) (insn : IR.Insn) (o : Opnd)
    (a2 : IR.Assembler) (h : IR.push_insn asm insn = Except.ok (o, a2)) :
    a2.insns = asm.insns ++ [{ insn with out := o }] := by
  rw [push_insn_eq] at h
  cases hu : IR.updateRanges asm.insns.length asm.live_ranges insn.opnds with
  | error e => rw [hu, bindErr] at h; cases h
  | ok lr2 =>
      rw [hu] at h
      simp only [bindOk] at h
      cases hw : IR.widthFold 0 (IR.sizedWidths insn.opnds) with
      | error e => rw [hw, bindErr] at h; cases h
      | ok w =>
          rw [hw] at h
          simp only [bindOk, Except.ok.injEq, Prod.mk.injEq] at h
          obtain ⟨h1, h2⟩ := h
          rw [← h2, ← h1]

/-- Overwriting the out of the last instruction of a nonempty list. -/
theorem setLastOut_insns (a : IR.Assembler) (xs : List IR.Insn) (last : IR.Insn)
    (o : Opnd) (h : a.insns = xs ++ [last]) :
    (IR.setLastOut a o).insns = xs ++ [{ last with out := o }] := by
  unfold IR.setLastOut
  rw [h, List.getLast?_concat]
  simp [List.dropLast_concat]

/-- C7: when the allocator reaches a CCall instruction, after the operands
whose live range ends here have been reclaimed, a non-empty pool bitmap is
the value-alive-across-C-call program error; and when the CCall output is
used by a later instruction, the instruction appended by a successful step
carries the platform C return register (possibly narrowed, its reg_no
unchanged) as its out, rather than the first free pool register. -/
theorem C7_ccall_pool_discipline (regs : List Reg) (lr : List Nat) (index pool : Nat)
    (acc : IR.Assembler) (insn : IR.Insn) (pool2 : Nat)
    (hop : insn.op = IR.Op.CCall)
    (hre : IR.allocReclaim regs lr acc index pool insn.opnds = Except.ok pool2) :
    (pool2 ≠ 0 → IR.allocRegsStep regs lr index pool acc insn =
        Except.error ("register lives past C function call")) ∧
    (∀ lrv, getIdx lr index = Except.ok lrv → lrv ≠ index →
      ∀ (p3 : Nat) (acc2 : IR.Assembler),
        IR.allocRegsStep regs lr index pool acc insn = Except.ok (p3, acc2) →
        ∃ (r : Reg) (insn2 : IR.Insn), acc2.insns.getLast? = some insn2 ∧
          insn2.out = Opnd.Reg r ∧ r.reg_no = C_RET_REG.reg_no) := by
  constructor
  · intro hp
    rw [allocRegsStep_eq, hre]
    simp only [bindOk]
    rw [if_pos ⟨hop, hp⟩]
  · intro lrv hlrv hne p3 acc2 hstep
    rw [allocRegsStep_eq, hre] at hstep
    simp only [bindOk] at hstep
    by_cases hp : pool2 = 0
    · rw [if_neg (fun hc => hc.2 hp)] at hstep
      have htake : ∃ pool3, IR.take_reg pool2 regs C_RET_REG =
          Except.ok (C_RET_REG, pool3) := by
        subst hp
        unfold IR.take_reg
        cases regs.findIdx? (fun elem => elem.reg_no = C_RET_REG.reg_no) with
        | none => exact ⟨0, rfl⟩
        | some i =>
            refine ⟨IR.poolSet 0 i, ?_⟩
            show (if 0 &&& 1 <<< i = 0 then Except.ok (C_RET_REG, IR.poolSet 0 i)
                else Except.error ("register already allocated")) = _
            rw [if_pos (Nat.zero_and _)]
      obtain ⟨pool3, htk⟩ := htake
      have hco : IR.allocChooseOut regs lr acc index pool2 insn =
          Except.ok (Opnd.Reg C_RET_REG, pool3) := by
        rw [allocChooseOut_eq, hlrv]
        simp only [bindOk]
        rw [if_neg hne, if_pos hop, htk]
        rfl
      rw [hco] at hstep
      simp only [bindOk] at hstep
      cases hrw : IR.allocRewrite acc insn.opnds with
      | error e => rw [hrw, bindErr] at hstep; cases hstep
      | ok ros =>
          rw [hrw] at hstep
          simp only [bindOk] at hstep
          cases hpp : IR.push_insn_parts acc insn.op ros insn.target insn.text
              insn.pos_marker with
          | error e => rw [hpp, bindErr] at hstep; cases hstep
          | ok q =>
              obtain ⟨out_o, acc3⟩ := q
              rw [hpp] at hstep
              simp only [bindOk] at hstep
              cases hrm : out_o.rm_num_bits with
              | error e => rw [hrm, bindErr] at hstep; cases hstep
              | ok nb =>
                  rw [hrm] at hstep
                  simp only [bindOk] at hstep
                  cases hsub : C_RET_REG.sub_reg nb with
                  | error e => rw [hsub, bindErr] at hstep; cases hstep
                  | ok narrowed =>
                      rw [hsub] at hstep
                      simp only [bindOk, Except.ok.injEq, Prod.mk.injEq] at hstep
                      obtain ⟨h1, h2⟩ := hstep
                      have hins : acc3.insns = acc.insns ++
                          [{ op := insn.op, text := insn.text, opnds := ros,
                             out := out_o, target := insn.target,
                             pos_marker := insn.pos_marker }] :=
                        push_insn_ok_insns acc _ out_o acc3 hpp
                      have hset := setLastOut_insns acc3 acc.insns _
                        (Opnd.Reg narrowed) hins
                      have hrno : narrowed.reg_no = C_RET_REG.reg_no := by
                        simp only [Reg.sub_reg] at hsub
                        split at hsub
                        · cases hsub; rfl
                        · cases hsub
                      refine ⟨narrowed,
                        { op := insn.op, text := insn.text, opnds := ros,
                          out := Opnd.Reg narrowed, target := insn.target,
                          pos_marker := insn.pos_marker }, ?_, rfl, hrno⟩
                      rw [← h2, hset]
                      exact List.getLast?_concat _
    · rw [if_pos ⟨hop, hp⟩] at hstep
      cases hstep

/-- Empty assembler for the C7 witness. -/
def asmC7 : IR.Assembler := IR.Assembler.new

/-- A bare CCall instruction for the C7 witness. -/
def insnC7 : IR.Insn :=
  { op := IR.Op.CCall, text := none, opnds := [], out := Opnd.None,
    target := none, pos_marker := none }

/-- Expected assembler after one allocator step over insnC7 with a live out. -/
def accC7 : IR.Assembler :=
  { insns := [{ op := IR.Op.CCall, text := none, opnds := [],
                out := Opnd.Reg RAX_REG, target := none, pos_marker := none }],
    live_ranges := [0], label_names := [] }

/-- Witness for C7 at concrete inputs: with one register still allocated the
step errors; with an empty pool and the CCall output used later, the emitted
instruction's out is the C return register RAX. -/
theorem C7_ccall_pool_discipline_witness :
    (insnC7.op = IR.Op.CCall ∧
     IR.allocReclaim [RAX_REG] [0] asmC7 0 1 insnC7.opnds = Except.ok 1 ∧
     IR.allocRegsStep [RAX_REG] [0] 0 1 asmC7 insnC7 =
       Except.error ("register lives past C function call")) ∧
    (IR.allocReclaim [RAX_REG] [1] asmC7 0 0 insnC7.opnds = Except.ok 0 ∧
     getIdx [1] 0 = Except.ok 1 ∧
     IR.allocRegsStep [RAX_REG] [1] 0 0 asmC7 insnC7 = Except.ok (1, accC7) ∧
     (∃ (r : Reg) (insn2 : IR.Insn), accC7.insns.getLast? = some insn2 ∧
        insn2.out = Opnd.Reg r ∧ r.reg_no = C_RET_REG.reg_no)) := by
  refine ⟨⟨rfl, rfl, ?_⟩, rfl, rfl, rfl, ?_⟩
  · exact (C7_ccall_pool_discipline [RAX_REG] [0] 0 1 asmC7 insnC7 1 rfl rfl).1
      (by decide)
  · exact (C7_ccall_pool_discipline [RAX_REG] [1] 0 0 asmC7 insnC7 0 rfl rfl).2
      1 rfl (by decide) 1 accC7 rfl

/-- An operand free of references to instruction outputs: it is not an
InsnOut and not a Mem based on an InsnOut. -/
def opndClean : Opnd → Bool
  | Opnd.InsnOut _ _ => false
  | Opnd.Mem { base := MemBase.InsnOut _, disp := _, num_bits := _ } => false
  | _ => true

/-- All input operands of the instruction are clean. -/
def insnClean (i : IR.Insn) : Bool := i.opnds.all opndClean

/-- Every instruction of the assembler has clean input operands. -/
def asmClean (a : IR.Assembler) : Bool := a.insns.all insnClean

/-- Every instruction of the assembler has an out that is itself clean. -/
def outsClean (a : IR.Assembler) : Bool :=
  a.insns.all (fun i => opndClean i.out)

/-- A successful indexed read returns an element of the list. -/
theorem getIdx_mem {α : Type} (xs : List α) (i : Nat) (x : α)
    (h : getIdx xs i = Except.ok x) : x ∈ xs := by
  unfold getIdx at h
  cases hg : xs.get? i with
  | none => rw [hg] at h; cases h
  | some y => rw [hg] at h; cases h; exact List.get?_mem hg

/-- In an assembler with clean outs, every instruction read back has a
clean out. -/
theorem outsClean_getIdx (acc : IR.Assembler) (idx : Nat) (prev : IR.Insn)
    (hout : outsClean acc = true) (h : getIdx acc.insns idx = Except.ok prev) :
    opndClean prev.out = true := by
  have hmem := getIdx_mem acc.insns idx prev h
  exact List.all_eq_true.mp hout prev hmem

/-- Unfolding of the operand rewrite loop on a cons as an explicit chain of
Except binds, with the per-operand match carrying its continuation. -/
theorem allocRewrite_eq (acc : IR.Assembler) (o : Opnd) (rest : List Opnd) :
    IR.allocRewrite acc (o :: rest) =
      (match o with
       | Opnd.InsnOut idx _ =>
           Except.bind (getIdx acc.insns idx) (fun prev =>
             Except.bind (IR.allocRewrite acc rest) (fun rest1 =>
               Except.ok (prev.out :: rest1)))
       | Opnd.Mem { base := MemBase.InsnOut idx, disp := disp, num_bits := num_bits } =>
           Except.bind (getIdx acc.insns idx) (fun prev =>
             Except.bind prev.out.unwrap_reg (fun out_reg =>
               Except.bind (IR.allocRewrite acc rest) (fun rest1 =>
                 Except.ok (Opnd.Mem { base := MemBase.Reg out_reg.reg_no,
                                       disp := disp, num_bits := num_bits } :: rest1))))
       | _ =>
           Except.bind (IR.allocRewrite acc rest) (fun rest1 =>
             Except.ok (o :: rest1))) := rfl

/-- Helper: a rewritten tail prefixed with a clean head is all clean. -/
theorem bindConsClean (v : Opnd) (t : Except String (List Opnd)) (ros : List Opnd)
    (hv : opndClean v = true)
    (ht : ∀ r1, t = Except.ok r1 → r1.all opndClean = true)
    (h : Except.bind t (fun rest1 => Except.ok (v :: rest1)) = Except.ok ros) :
    ros.all opndClean = true := by
  cases hres : t with
  | error e => rw [hres, bindErr] at h; cases h
  | ok r1 =>
      rw [hres] at h
      simp only [bindOk] at h
      cases h
      simp [List.all_cons, hv, ht r1 hres]

/-- The operand rewrite loop of alloc_regs only produces clean operands when
all outs recorded so far are clean: every InsnOut is replaced by the stored
out, and every InsnOut memory base by a register base. -/
theorem allocRewrite_clean (acc : IR.Assembler) (hout : outsClean acc = true)
    (opnds : List Opnd) :
    ∀ ros, IR.allocRewrite acc opnds = Except.ok ros → ros.all opndClean = true := by
  induction opnds with
  | nil => intro ros h; cases h; rfl
  | cons o rest ih =>
      intro ros h
      rw [allocRewrite_eq] at h
      cases o with
      | InsnOut idx w =>
          have h2 : Except.bind (getIdx acc.insns idx) (fun prev =>
              Except.bind (IR.allocRewrite acc rest) (fun rest1 =>
                Except.ok (prev.out :: rest1))) = Except.ok ros := h
          cases hg : getIdx acc.insns idx with
          | error e => rw [hg, bindErr] at h2; cases h2
          | ok prev =>
              rw [hg] at h2
              simp only [bindOk] at h2
              exact bindConsClean prev.out _ ros
                (outsClean_getIdx acc idx prev hout hg) ih h2
      | Mem m =>
          obtain ⟨b, d, nb⟩ := m
          cases b with
          | InsnOut idx =>
              have h2 : Except.bind (getIdx acc.insns idx) (fun prev =>
                  Except.bind prev.out.unwrap_reg (fun out_reg =>
                    Except.bind (IR.allocRewrite acc rest) (fun rest1 =>
                      Except.ok (Opnd.Mem { base := MemBase.Reg out_reg.reg_no,
                                            disp := d, num_bits := nb } :: rest1)))) =
                  Except.ok ros := h
              cases hg : getIdx acc.insns idx with
              | error e => rw [hg, bindErr] at h2; cases h2
              | ok prev =>
                  rw [hg] at h2
                  simp only [bindOk] at h2
                  cases hu : prev.out.unwrap_reg with
                  | error e => rw [hu, bindErr] at h2; cases h2
                  | ok out_reg =>
                      rw [hu] at h2
                      simp only [bindOk] at h2
                      exact bindConsClean
                        (Opnd.Mem { base := MemBase.Reg out_reg.reg_no,
                                    disp := d, num_bits := nb }) _ ros rfl ih h2
          | Reg rno =>
              have h2 : Except.bind (IR.allocRewrite acc rest) (fun rest1 =>
                  Except.ok (Opnd.Mem { base := MemBase.Reg rno, disp := d,
                                        num_bits := nb } :: rest1)) = Except.ok ros := h
              exact bindConsClean
                (Opnd.Mem { base := MemBase.Reg rno, disp := d, num_bits := nb })
                _ ros rfl ih h2
      | None =>
          exact bindConsClean Opnd.None _ ros rfl ih h
      | Value v =>
          exact bindConsClean (Opnd.Value v) _ ros rfl ih h
      | Imm i =>
          exact bindConsClean (Opnd.Imm i) _ ros rfl ih h
      | UImm u =>
          exact bindConsClean (Opnd.UImm u) _ ros rfl ih h
      | Reg r =>
          exact bindConsClean (Opnd.Reg r) _ ros rfl ih h

/-- The reuse branch of alloc_regs returns either no operand or a register. -/
theorem allocReuse_shape (regs : List Reg) (lr : List Nat) (acc : IR.Assembler)
    (index pool : Nat) (opnds : List Opnd) (o : Opnd) (p : Nat)
    (h : IR.allocReuse regs lr acc index pool opnds = Except.ok (o, p)) :
    o = Opnd.None ∨ ∃ r, o = Opnd.Reg r := by
  cases opnds with
  | nil =>
      have h2 : Except.ok ((Opnd.None : Opnd), pool) = Except.ok (o, p) := h
      cases h2
      exact Or.inl rfl
  | cons o0 rest =>
      cases o0
      case InsnOut idx w =>
        have h2 : Except.bind (getIdx lr idx) (fun last_use =>
            if last_use = index then
              Except.bind (getIdx acc.insns idx) (fun prev =>
                match prev.out with
                | Opnd.Reg reg =>
                    Except.bind (IR.take_reg pool regs reg)
                      (fun q => Except.ok (Opnd.Reg q.1, q.2))
                | _ => Except.ok (Opnd.None, pool))
            else Except.ok (Opnd.None, pool)) = Except.ok (o, p) := h
        cases hg : getIdx lr idx with
        | error e => rw [hg, bindErr] at h2; cases h2
        | ok last_use =>
            rw [hg] at h2
            simp only [bindOk] at h2
            by_cases hlu : last_use = index
            · rw [if_pos hlu] at h2
              cases hg2 : getIdx acc.insns idx with
              | error e => rw [hg2, bindErr] at h2; cases h2
              | ok prev =>
                  rw [hg2] at h2
                  simp only [bindOk] at h2
                  cases hpo : prev.out with
                  | Reg reg =>
                      rw [hpo] at h2
                      have h3 : Except.bind (IR.take_reg pool regs reg)
                          (fun q => Except.ok (Opnd.Reg q.1, q.2)) =
                          Except.ok (o, p) := h2
                      cases htk : IR.take_reg pool regs reg with
                      | error e =>
                          rw [htk, bindErr] at h3; cases h3
                      | ok q =>
                          rw [htk] at h3
                          simp only [bindOk] at h3
                          cases h3
                          exact Or.inr ⟨q.1, rfl⟩
                  | None => rw [hpo] at h2; cases h2; exact Or.inl rfl
                  | Value v => rw [hpo] at h2; cases h2; exact Or.inl rfl
                  | InsnOut i2 w2 => rw [hpo] at h2; cases h2; exact Or.inl rfl
                  | Imm i2 => rw [hpo] at h2; cases h2; exact Or.inl rfl
                  | UImm u2 => rw [hpo] at h2; cases h2; exact Or.inl rfl
                  | Mem m2 => rw [hpo] at h2; cases h2; exact Or.inl rfl
            · rw [if_neg hlu] at h2
              cases h2
              exact Or.inl rfl
      all_goals
        first
        | (have h2 : Except.ok ((Opnd.None : Opnd), pool) = Except.ok (o, p) := h;
           cases h2;
           exact Or.inl rfl)

/-- The output chosen by alloc_regs for an instruction is either no operand
(output dead) or a register. -/
theorem allocChooseOut_shape (regs : List Reg) (lr : List Nat) (acc : IR.Assembler)
    (index pool : Nat) (insn : IR.Insn) (o : Opnd) (p : Nat)
    (h : IR.allocChooseOut regs lr acc index pool insn = Except.ok (o, p)) :
    o = Opnd.None ∨ ∃ r, o = Opnd.Reg r := by
  rw [allocChooseOut_eq] at h
  cases hg : getIdx lr index with
  | error e => rw [hg, bindErr] at h; cases h
  | ok last_use =>
      rw [hg] at h
      simp only [bindOk] at h
      by_cases hlu : last_use = index
      · rw [if_pos hlu] at h
        cases h
        exact Or.inl rfl
      · rw [if_neg hlu] at h
        by_cases hcc : insn.op = IR.Op.CCall
        · rw [if_pos hcc] at h
          cases htk : IR.take_reg pool regs C_RET_REG with
          | error e => rw [htk, bindErr] at h; cases h
          | ok q =>
              rw [htk] at h
              simp only [bindOk] at h
              cases h
              exact Or.inr ⟨q.1, rfl⟩
        · rw [if_neg hcc] at h
          cases hru : IR.allocReuse regs lr acc index pool insn.opnds with
          | error e => rw [hru, bindErr] at h; cases h
          | ok q =>
              rw [hru] at h
              simp only [bindOk] at h
              by_cases hq1 : q.1 = Opnd.None
              · rw [if_pos hq1] at h
                by_cases hlv : insn.op = IR.Op.LiveReg
                · rw [if_pos hlv] at h
                  cases hg0 : getIdx insn.opnds 0 with
                  | error e => rw [hg0, bindErr] at h; cases h
                  | ok first =>
                      rw [hg0] at h
                      simp only [bindOk] at h
                      cases hur : first.unwrap_reg with
                      | error e => rw [hur, bindErr] at h; cases h
                      | ok reg =>
                          rw [hur] at h
                          simp only [bindOk] at h
                          cases htk : IR.take_reg q.2 regs reg with
                          | error e => rw [htk, bindErr] at h; cases h
                          | ok q2 =>
                              rw [htk] at h
                              simp only [bindOk] at h
                              cases h
                              exact Or.inr ⟨q2.1, rfl⟩
                · rw [if_neg hlv] at h
                  cases hal : IR.alloc_reg q.2 regs with
                  | error e => rw [hal, bindErr] at h; cases h
                  | ok q2 =>
                      rw [hal] at h
                      simp only [bindOk] at h
                      cases h
                      exact Or.inr ⟨q2.1, rfl⟩
              · rw [if_neg hq1] at h
                cases h
                rcases allocReuse_shape regs lr acc index pool insn.opnds q.1 q.2
                    (by rw [hru]) with hn | hr
                · exact absurd hn hq1
                · exact Or.inr hr

/-- Appending an element satisfying the predicate preserves List.all. -/
theorem all_concat {α : Type} (p : α → Bool) (xs : List α) (x : α)
    (hx : xs.all p = true) (h1 : p x = true) : (xs ++ [x]).all p = true := by
  simp [List.all_append, hx, h1]

/-- One allocator step preserves cleanliness of the accumulated assembler:
the appended instruction's operands went through the rewrite loop and its
out is overwritten with the chosen None or register. -/
theorem allocRegsStep_clean (regs : List Reg) (lr : List Nat) (index pool : Nat)
    (acc : IR.Assembler) (insn : IR.Insn) (pool2 : Nat) (acc2 : IR.Assembler)
    (hout : outsClean acc = true) (hcl : asmClean acc = true)
    (h : IR.allocRegsStep regs lr index pool acc insn = Except.ok (pool2, acc2)) :
    outsClean acc2 = true ∧ asmClean acc2 = true := by
  rw [allocRegsStep_eq] at h
  cases hrc : IR.allocReclaim regs lr acc index pool insn.opnds with
  | error e => rw [hrc, bindErr] at h; cases h
  | ok pool1 =>
      rw [hrc] at h
      simp only [bindOk] at h
      by_cases hcc : insn.op = IR.Op.CCall ∧ pool1 ≠ 0
      · rw [if_pos hcc] at h; cases h
      · rw [if_neg hcc] at h
        cases hco : IR.allocChooseOut regs lr acc index pool1 insn with
        | error e => rw [hco, bindErr] at h; cases h
        | ok q =>
            obtain ⟨out_reg, pool1b⟩ := q
            rw [hco] at h
            simp only [bindOk] at h
            cases hrw : IR.allocRewrite acc insn.opnds with
            | error e => rw [hrw, bindErr] at h; cases h
            | ok ros =>
                rw [hrw] at h
                simp only [bindOk] at h
                cases hpp : IR.push_insn_parts acc insn.op ros insn.target insn.text
                    insn.pos_marker with
                | error e => rw [hpp, bindErr] at h; cases h
                | ok q2 =>
                    obtain ⟨out_o, acc3⟩ := q2
                    rw [hpp] at h
                    simp only [bindOk] at h
                    have hins : acc3.insns = acc.insns ++
                        [{ op := insn.op, text := insn.text, opnds := ros,
                           out := out_o, target := insn.target,
                           pos_marker := insn.pos_marker }] :=
                      push_insn_ok_insns acc _ out_o acc3 hpp
                    have hros : ros.all opndClean = true :=
                      allocRewrite_clean acc hout insn.opnds ros hrw
                    rcases allocChooseOut_shape regs lr acc index pool1 insn out_reg
                        pool1b hco with hnone | ⟨r, hr⟩
                    · subst hnone
                      have h2 : Except.ok (pool1b,
                          IR.setLastOut acc3 Opnd.None) = Except.ok (pool2, acc2) := h
                      simp only [Except.ok.injEq, Prod.mk.injEq] at h2
                      obtain ⟨h2a, h2b⟩ := h2
                      subst h2b
                      have hset := setLastOut_insns acc3 acc.insns _ Opnd.None hins
                      constructor
                      · show (IR.setLastOut acc3 Opnd.None).insns.all
                            (fun i => opndClean i.out) = true
                        rw [hset]
                        exact all_concat _ _ _ hout rfl
                      · show (IR.setLastOut acc3 Opnd.None).insns.all insnClean = true
                        rw [hset]
                        exact all_concat _ _ _ hcl hros
                    · subst hr
                      have h3 : Except.bind out_o.rm_num_bits (fun num_out_bits =>
                          Except.bind (r.sub_reg num_out_bits) (fun narrowed =>
                            Except.ok (pool1b,
                              IR.setLastOut acc3 (Opnd.Reg narrowed)))) =
                          Except.ok (pool2, acc2) := h
                      cases hrm : out_o.rm_num_bits with
                      | error e => rw [hrm, bindErr] at h3; cases h3
                      | ok nb =>
                          rw [hrm] at h3
                          simp only [bindOk] at h3
                          cases hsub : r.sub_reg nb with
                          | error e => rw [hsub, bindErr] at h3; cases h3
                          | ok narrowed =>
                              rw [hsub] at h3
                              simp only [bindOk, Except.ok.injEq,
                                Prod.mk.injEq] at h3
                              obtain ⟨h2a, h2b⟩ := h3
                              subst h2b
                              have hset := setLastOut_insns acc3 acc.insns _
                                (Opnd.Reg narrowed) hins
                              constructor
                              · show (IR.setLastOut acc3
                                    (Opnd.Reg narrowed)).insns.all
                                    (fun i => opndClean i.out) = true
                                rw [hset]
                                exact all_concat _ _ _ hout rfl
                              · show (IR.setLastOut acc3
                                    (Opnd.Reg narrowed)).insns.all insnClean = true
                                rw [hset]
                                exact all_concat _ _ _ hcl hros

/-- Unfolding of the allocator loop on a cons. -/
theorem allocRegsLoop_eq (regs : List Reg) (lr : List Nat) (index pool : Nat)
    (acc : IR.Assembler) (insn : IR.Insn) (rest : List IR.Insn) :
    IR.allocRegsLoop regs lr index pool acc (insn :: rest) =
      Except.bind (IR.allocRegsStep regs lr index pool acc insn) (fun x =>
        IR.allocRegsLoop regs lr (index + 1) x.1 x.2 rest) := rfl

/-- The allocator loop preserves cleanliness of the accumulated assembler. -/
theorem allocRegsLoop_clean (regs : List Reg) (lr : List Nat) (insns : List IR.Insn) :
    ∀ (index pool : Nat) (acc : IR.Assembler), outsClean acc = true →
      asmClean acc = true → ∀ pf af,
      IR.allocRegsLoop regs lr index pool acc insns = Except.ok (pf, af) →
      outsClean af = true ∧ asmClean af = true := by
  induction insns with
  | nil =>
      intro index pool acc h1 h2 pf af h
      cases h
      exact ⟨h1, h2⟩
  | cons insn rest ih =>
      intro index pool acc h1 h2 pf af h
      rw [allocRegsLoop_eq] at h
      cases hs : IR.allocRegsStep regs lr index pool acc insn with
      | error e => rw [hs, bindErr] at h; cases h
      | ok q =>
          rw [hs] at h
          simp only [bindOk] at h
          have hc := allocRegsStep_clean regs lr index pool acc insn q.1 q.2 h1 h2
            (by rw [hs])
          exact ih (index + 1) q.1 q.2 hc.1 hc.2 pf af h

/-- Unfolding of alloc_regs: run the loop, then check the pool is empty. -/
theorem alloc_regs_eq (asm : IR.Assembler) (regs : List Reg) :
    IR.alloc_regs asm regs =
      Except.bind (IR.allocRegsRun asm regs) (fun x =>
        if x.1 = 0 then Except.ok x.2
        else Except.error ("Expected all registers to be returned to the pool")) := rfl

/-- C1: every assembler returned by alloc_regs without a program error is
free of InsnOut operands and of Mem operands with an InsnOut base (all of
them were replaced through the rewrite loop by operands recorded in the new
instruction list), and the final register-pool bitmap is zero. -/
theorem C1_alloc_regs_no_insnout (asm : IR.Assembler) (regs : List Reg)
    (a2 : IR.Assembler) (h : IR.alloc_regs asm regs = Except.ok a2) :
    asmClean a2 = true ∧ IR.allocRegsRun asm regs = Except.ok (0, a2) := by
  rw [alloc_regs_eq] at h
  cases hrun : IR.allocRegsRun asm regs with
  | error e => rw [hrun, bindErr] at h; cases h
  | ok pr =>
      obtain ⟨p1, a1⟩ := pr
      rw [hrun] at h
      simp only [bindOk] at h
      by_cases hp : (p1, a1).1 = 0
      · rw [if_pos hp] at h
        simp only [Except.ok.injEq] at h
        subst h
        refine ⟨?_, ?_⟩
        · exact (allocRegsLoop_clean regs asm.live_ranges asm.insns 0 0
            (IR.Assembler.new_with_label_names asm.label_names) rfl rfl p1 a1
            hrun).2
        · have hp1 : p1 = 0 := hp
          subst hp1
          rfl
      · rw [if_neg hp] at h
        cases h

/-- One-instruction assembler (t0 = add(EC, 1)) for the C1 witness. -/
def asmC1 : IR.Assembler :=
  { insns := [{ op := IR.Op.Add, text := none, opnds := [EC, Opnd.UImm 1],
                out := Opnd.InsnOut 0 64, target := none, pos_marker := none }],
    live_ranges := [0], label_names := [] }

/-- Expected allocation of asmC1: operands untouched (no InsnOut present),
dead output dropped to None, pool empty. -/
def accC1 : IR.Assembler :=
  { insns := [{ op := IR.Op.Add, text := none, opnds := [EC, Opnd.UImm 1],
                out := Opnd.None, target := none, pos_marker := none }],
    live_ranges := [0], label_names := [] }

/-- Witness for C1 at a concrete assembler: alloc_regs succeeds, the result
is free of InsnOut operands and bases, and the loop ends with pool zero. -/
theorem C1_alloc_regs_no_insnout_witness :
    IR.alloc_regs asmC1 [RAX_REG] = Except.ok accC1 ∧
    asmClean accC1 = true ∧
    IR.allocRegsRun asmC1 [RAX_REG] = Except.ok (0, accC1) :=
  ⟨rfl, (C1_alloc_regs_no_insnout asmC1 [RAX_REG] accC1 rfl).1,
    (C1_alloc_regs_no_insnout asmC1 [RAX_REG] accC1 rfl).2⟩
